import Mathlib

/-!
# Final Project: an object-oriented store model

A shallow embedding of `src/Final Project/final_project.cpp`.

Conventions of the embedding.

* `double` is a type parameter `D` together with the operations the program
  uses on it (`0.0`, `1.0`, `+`, `-`, `*`).  Structural results hold for every
  interpretation of these operations, in particular for IEEE binary64; results
  that need order or algebraic laws state the laws they use, and concrete
  evaluations are carried out in `ℚ` on values that binary64 represents and
  combines exactly.
* `Binary64` interprets `double` as IEEE 754 binary64 with round to nearest,
  ties to even: finite values are the rationals they stand for, every operation
  rounds its exact result, overflow gives an infinity, and NaN is a value.  The
  two zeros are one value.  Results that depend on rounding are stated in it.
* `Item` and the pricing strategies have no mutating member, so a pointer to
  one of them is modelled by the object it points to; `nullptr` is `none`.
* `Department` and `Customer` are mutable objects: the store registries, which
  hold `Department*` and `Customer*`, hold addresses.
* `int` is 32 bits wide, and the conversion `(int)items.size()` wraps modulo
  `2 ^ 32` (two's complement).
* A constructor call either completes or throws, so the constructors the
  specification attaches a validation error to return `Except String _`; their
  bodies contain no `throw`.
* Text written to `cout` is a list of output tokens, one per `<<` operand.
-/

namespace FinalProject

/-! ## Pricing strategies -/

/-- The concrete subclasses of `PricingStrategy`; `percent` is the private
field of `DiscountPricing`. -/
inductive PricingStrategy (D : Type) where
  | RegularPricing : PricingStrategy D
  | DiscountPricing (percent : D) : PricingStrategy D
  deriving DecidableEq

/-- The constructor `DiscountPricing(double p) { percent = p; }`. -/
def DiscountPricing.new {D : Type} (p : D) : Except String (PricingStrategy D) :=
  pure (PricingStrategy.DiscountPricing p)

/-- The virtual call `strategy->getPrice(basePrice)`:
`RegularPricing` returns `basePrice`, `DiscountPricing` returns
`basePrice * (1.0 - percent)`. -/
def PricingStrategy.getPrice {D : Type} [One D] [Sub D] [Mul D] :
    PricingStrategy D → D → D
  | PricingStrategy.RegularPricing, basePrice => basePrice
  | PricingStrategy.DiscountPricing percent, basePrice => basePrice * (1 - percent)

/-! ## Items -/

/-- The fields of class `Item`; `strategy` is a `PricingStrategy*`. -/
structure Item (D : Type) where
  name : String
  basePrice : D
  strategy : Option (PricingStrategy D)
  deriving DecidableEq

/-- The constructor `Item(string n, double p, PricingStrategy* s)`: three field
assignments. -/
def Item.new {D : Type} (n : String) (p : D) (s : Option (PricingStrategy D)) :
    Except String (Item D) :=
  pure (Item.mk n p s)

/-- The member `Item::getName`. -/
def Item.getName {D : Type} (it : Item D) : String :=
  it.name

/-- The member `Item::getPrice`: the base price when `strategy == nullptr`,
otherwise the strategy applied to the base price. -/
def Item.getPrice {D : Type} [One D] [Sub D] [Mul D] (it : Item D) : D :=
  match it.strategy with
  | none => it.basePrice
  | some s => s.getPrice it.basePrice

/-- The values returned by `k` successive calls of `getPrice` on one item,
first call first. -/
def Item.getPriceTimes {D : Type} [One D] [Sub D] [Mul D] (it : Item D) : Nat → List D
  | 0 => []
  | k + 1 => it.getPrice :: it.getPriceTimes k

/-! ## Machine integers -/

/-- The conversion `(int)n` of a `size_t` value to a 32-bit `int`. -/
def toInt (n : Nat) : Int :=
  if (n : Int) % 4294967296 < 2147483648 then (n : Int) % 4294967296
  else (n : Int) % 4294967296 - 4294967296

/-! ## Output -/

/-- One operand written to `cout`. -/
inductive Out (D : Type) where
  | str (s : String) : Out D
  | idx (i : Nat) : Out D
  | dbl (x : D) : Out D
  | endl : Out D
  deriving DecidableEq

/-! ## Departments -/

/-- The fields of class `Department`; `items` is the `vector<Item*>`, whose
entries all come from `new Item`. -/
structure Department (D : Type) where
  name : String
  items : List (Item D)
  deriving DecidableEq

/-- The constructor `Department(string n)`. -/
def Department.new {D : Type} (n : String) : Department D :=
  Department.mk n []

/-- The member `Department::getName`. -/
def Department.getName {D : Type} (d : Department D) : String :=
  d.name

/-- The member `Department::addItem`: construct the item, push it back, return
it.  The result pairs the returned item with the department afterwards. -/
def Department.addItem {D : Type} (d : Department D) (itemName : String) (price : D)
    (strategy : Option (PricingStrategy D)) : Except String (Item D × Department D) := do
  let item ← Item.new itemName price strategy
  pure (item, Department.mk d.name (d.items ++ [item]))

/-- The lines the loop of `showItems` writes for the items from position `i`
on. -/
def Department.showItemsFrom {D : Type} [One D] [Sub D] [Mul D] :
    Nat → List (Item D) → List (Out D)
  | _, [] => []
  | i, it :: rest =>
    [Out.idx i, Out.str " ", Out.str it.getName, Out.str " price ", Out.dbl it.getPrice,
      Out.endl] ++ Department.showItemsFrom (i + 1) rest

/-- The member `Department::showItems`. -/
def Department.showItems {D : Type} [One D] [Sub D] [Mul D] (d : Department D) :
    List (Out D) :=
  [Out.str "Items in ", Out.str d.name, Out.str " department", Out.endl]
    ++ Department.showItemsFrom 0 d.items ++ [Out.endl]

/-- The member `Department::getItemByIndex`: `nullptr` when
`index < 0 || index >= (int)items.size()`, otherwise `items[index]`.  Past the
guard the subscript is inside the vector. -/
def Department.getItemByIndex {D : Type} (d : Department D) (index : Int) :
    Option (Item D) :=
  if h : index < 0 ∨ index ≥ toInt d.items.length then none
  else some (d.items.get ⟨index.toNat, by
    unfold toInt at h
    split at h <;> omega⟩)

/-! ## Shopping carts -/

/-- The field of class `ShoppingCart`: the `vector<Item*>`.  The only writer is
`add`, which pushes non-null pointers only. -/
structure ShoppingCart (D : Type) where
  items : List (Item D)
  deriving DecidableEq

/-- The implicit default constructor: an empty vector. -/
def ShoppingCart.new {D : Type} : ShoppingCart D :=
  ShoppingCart.mk []

/-- The member `ShoppingCart::add`: push back unless `item == nullptr`. -/
def ShoppingCart.add {D : Type} (c : ShoppingCart D) (item : Option (Item D)) :
    ShoppingCart D :=
  match item with
  | some it => ShoppingCart.mk (c.items ++ [it])
  | none => c

/-- The calls `add(r₁); …; add(rₙ)` in that order. -/
def ShoppingCart.addAll {D : Type} (c : ShoppingCart D) (refs : List (Option (Item D))) :
    ShoppingCart D :=
  refs.foldl ShoppingCart.add c

/-- The lines the loop of `showCart` writes. -/
def ShoppingCart.showCartLines {D : Type} [One D] [Sub D] [Mul D] :
    List (Item D) → List (Out D)
  | [] => []
  | it :: rest =>
    [Out.str it.getName, Out.str " price ", Out.dbl it.getPrice, Out.endl]
      ++ ShoppingCart.showCartLines rest

/-- The member `ShoppingCart::showCart`. -/
def ShoppingCart.showCart {D : Type} [One D] [Sub D] [Mul D] (c : ShoppingCart D) :
    List (Out D) :=
  [Out.str "Items in cart", Out.endl] ++ ShoppingCart.showCartLines c.items

/-- The member `ShoppingCart::getTotal`: `total` starts at `0.0` and the loop
adds `items[i]->getPrice()` for `i = 0, 1, …`. -/
def ShoppingCart.getTotal {D : Type} [Zero D] [Add D] [One D] [Sub D] [Mul D]
    (c : ShoppingCart D) : D :=
  c.items.foldl (fun total it => total + it.getPrice) 0

/-! ## Customers -/

/-- The fields of class `Customer`; the cart is owned by value. -/
structure Customer (D : Type) where
  name : String
  cart : ShoppingCart D
  deriving DecidableEq

/-- The constructor `Customer(string n)`; the cart is default-constructed. -/
def Customer.new {D : Type} (n : String) : Customer D :=
  Customer.mk n ShoppingCart.new

/-- The member `Customer::getName`. -/
def Customer.getName {D : Type} (c : Customer D) : String :=
  c.name

/-- The member `Customer::getCart`. -/
def Customer.getCart {D : Type} (c : Customer D) : ShoppingCart D :=
  c.cart

/-- The member `Customer::addToCart`: `cart.add(item)`. -/
def Customer.addToCart {D : Type} (c : Customer D) (item : Option (Item D)) : Customer D :=
  Customer.mk c.name (c.cart.add item)

/-! ## The store -/

/-- The address of a `Department` or `Customer` object. -/
abbrev Addr := Nat

/-- The fields of class `Store`: the name and the two pointer vectors. -/
structure Store where
  name : String
  departments : List Addr
  customers : List Addr
  deriving DecidableEq

/-- The private constructor `Store(string n)`. -/
def Store.new (n : String) : Store :=
  Store.mk n [] []

/-- The static member `Store::init`, acting on the static pointer
`Store::instance` (`none` is `nullptr`, its initial value): a store is created
only when the pointer is null. -/
def Store.init (inst : Option Store) (n : String) : Option Store :=
  match inst with
  | none => some (Store.new n)
  | some s => some s

/-- The static member `Store::getInstance`. -/
def Store.getInstance (inst : Option Store) : Option Store :=
  inst

/-- The member `Store::addDepartment`. -/
def Store.addDepartment (s : Store) (d : Addr) : Store :=
  Store.mk s.name (s.departments ++ [d]) s.customers

/-- The member `Store::addCustomer`; `cObj` is the object `c` points to.  The
result pairs the store afterwards with the text written. -/
def Store.addCustomer {D : Type} (s : Store) (c : Addr) (cObj : Customer D) :
    Store × List (Out D) :=
  (Store.mk s.name s.departments (s.customers ++ [c]),
    [Out.str cObj.getName, Out.str " entered store ", Out.str s.name, Out.endl])

/-- The member `Store::checkout`; `cObj` is the object `c` points to.  No field
of the store or of the customer is assigned; the result is the text written. -/
def Store.checkout {D : Type} [Zero D] [Add D] [One D] [Sub D] [Mul D] (_s : Store)
    (cObj : Customer D) : List (Out D) :=
  [Out.str "Checkout for ", Out.str cObj.getName, Out.endl]
    ++ cObj.getCart.showCart
    ++ [Out.str "Total ", Out.dbl cObj.getCart.getTotal, Out.endl]

/-- The member `Store::getDepartments`. -/
def Store.getDepartments (s : Store) : List Addr :=
  s.departments

/-- A call a driver makes on the store: the static `init`, or a member called
through `Store::getInstance()`. -/
inductive StoreCall (D : Type) where
  | init (n : String) : StoreCall D
  | addDepartment (d : Addr) : StoreCall D
  | addCustomer (c : Addr) (cObj : Customer D) : StoreCall D
  | checkout (cObj : Customer D) : StoreCall D

/-- The effect of one call on the static pointer `Store::instance`.  A member
call needs an object: with a null instance there is none to call on and the
pointer stays null. -/
def StoreCall.step {D : Type} (inst : Option Store) : StoreCall D → Option Store
  | StoreCall.init n => Store.init inst n
  | StoreCall.addDepartment d => (Store.getInstance inst).map (fun s => s.addDepartment d)
  | StoreCall.addCustomer c cObj =>
    (Store.getInstance inst).map (fun s => (s.addCustomer c cObj).1)
  | StoreCall.checkout _ => Store.getInstance inst

/-- The effect of a sequence of calls, first call first. -/
def StoreCall.run {D : Type} (inst : Option Store) (calls : List (StoreCall D)) :
    Option Store :=
  calls.foldl StoreCall.step inst

/-! ## Program states -/

/-- A member call on a `Department` object. -/
inductive DepartmentCall (D : Type) where
  | getName : DepartmentCall D
  | addItem (itemName : String) (price : D) (strategy : Option (PricingStrategy D)) :
      DepartmentCall D
  | showItems : DepartmentCall D
  | getItemByIndex (index : Int) : DepartmentCall D

/-- The department after one member call.  `getName`, `showItems` and
`getItemByIndex` assign no field; `addItem` leaves the department it returns. -/
def DepartmentCall.step {D : Type} (d : Department D) :
    DepartmentCall D → Except String (Department D)
  | DepartmentCall.getName => pure d
  | DepartmentCall.addItem itemName price strategy => do
    let r ← d.addItem itemName price strategy
    pure r.2
  | DepartmentCall.showItems => pure d
  | DepartmentCall.getItemByIndex _ => pure d

/-- The department after a sequence of member calls, first call first. -/
def DepartmentCall.run {D : Type} (d : Department D) :
    List (DepartmentCall D) → Except String (Department D)
  | [] => pure d
  | call :: rest => do
    let dd ← DepartmentCall.step d call
    DepartmentCall.run dd rest

/-- A state of the program: the pointee of `Store::instance` (`none` while the
pointer is null) and the live `Department` and `Customer` objects, the address
of an object being its position in its list. -/
structure World (D : Type) where
  store : Option Store
  departments : List (Department D)
  customers : List (Customer D)
  deriving DecidableEq

/-- The call `Store::getInstance()->checkout(c)` in a program state: the state
afterwards and the text written.  The body and the members it calls assign no
field of any object.  With a null instance, or with `c` the address of no live
customer, the call has no defined result. -/
def World.checkout {D : Type} [Zero D] [Add D] [One D] [Sub D] [Mul D] (w : World D)
    (c : Addr) : Option (World D × List (Out D)) :=
  match w.store, w.customers[c]? with
  | some s, some cObj => some (w, s.checkout cObj)
  | _, _ => none

/-! ## Listings -/

/-- The cart listing as the specification describes it: the pairs
`(getName(), getPrice())` of the entries, in insertion order. -/
def ShoppingCart.list {D : Type} [One D] [Sub D] [Mul D] (c : ShoppingCart D) :
    List (String × D) :=
  c.items.map (fun it => (it.getName, it.getPrice))

/-- The text of one line of the cart listing. -/
def Out.cartLine {D : Type} (line : String × D) : List (Out D) :=
  [Out.str line.1, Out.str " price ", Out.dbl line.2, Out.endl]

/-- The department listing as the specification describes it: the triples
`(index, getName(), getPrice())` of the items, positions counted from `i`. -/
def Department.listItemsFrom {D : Type} [One D] [Sub D] [Mul D] :
    Nat → List (Item D) → List (Nat × String × D)
  | _, [] => []
  | i, it :: rest => (i, it.getName, it.getPrice) :: Department.listItemsFrom (i + 1) rest

/-- The department listing as the specification describes it, positions
counted from `0`. -/
def Department.listItems {D : Type} [One D] [Sub D] [Mul D] (d : Department D) :
    List (Nat × String × D) :=
  Department.listItemsFrom 0 d.items

/-- The text of one line of the department listing. -/
def Out.itemLine {D : Type} (line : Nat × String × D) : List (Out D) :=
  [Out.idx line.1, Out.str " ", Out.str line.2.1, Out.str " price ", Out.dbl line.2.2,
    Out.endl]

/-! ## The arithmetic of `double` (IEEE 754 binary64, round to nearest even) -/

/-- Rounding of a rational to an integer, to nearest, ties to even. -/
def roundHalfEven (x : ℚ) : Int :=
  if x - ⌊x⌋ < 1 / 2 then ⌊x⌋
  else if 1 / 2 < x - ⌊x⌋ then ⌊x⌋ + 1
  else if ⌊x⌋ % 2 = 0 then ⌊x⌋
  else ⌊x⌋ + 1

/-- The exponent of the spacing of binary64 values around `q`: 52 below the
binary exponent of `q`, the binary exponent being at least `-1022`
(subnormal numbers share the spacing `2 ^ (-1074)`). -/
def ulpExp (q : ℚ) : Int :=
  max (Int.log 2 |q|) (-1022) - 52

/-- Rounding of a rational to the nearest multiple of the spacing around it,
ties to even: the binary64 rounding with the exponent unbounded above. -/
def roundToGrid (q : ℚ) : ℚ :=
  (roundHalfEven (q / 2 ^ ulpExp q) : ℚ) * 2 ^ ulpExp q

/-- The values of a `double`: the finite ones by the rational they stand for
(the two zeros are one value, they compare equal), the infinities and NaN. -/
inductive Binary64 where
  | finite (q : ℚ) : Binary64
  | posInf : Binary64
  | negInf : Binary64
  | nan : Binary64
  deriving DecidableEq

/-- The `double` a rational rounds to: the exact result of an operation, or a
decimal literal of the source; magnitudes that round to `2 ^ 1024` or more
overflow to an infinity. -/
def Binary64.ofRat (q : ℚ) : Binary64 :=
  if 2 ^ 1024 ≤ roundToGrid q then Binary64.posInf
  else if roundToGrid q ≤ -(2 ^ 1024) then Binary64.negInf
  else Binary64.finite (roundToGrid q)

/-- Negation of a `double`. -/
def Binary64.neg : Binary64 → Binary64
  | Binary64.finite q => Binary64.finite (-q)
  | Binary64.posInf => Binary64.negInf
  | Binary64.negInf => Binary64.posInf
  | Binary64.nan => Binary64.nan

/-- Addition of `double`s. -/
def Binary64.add : Binary64 → Binary64 → Binary64
  | Binary64.finite a, Binary64.finite b => Binary64.ofRat (a + b)
  | Binary64.nan, _ => Binary64.nan
  | _, Binary64.nan => Binary64.nan
  | Binary64.posInf, Binary64.negInf => Binary64.nan
  | Binary64.negInf, Binary64.posInf => Binary64.nan
  | Binary64.posInf, _ => Binary64.posInf
  | _, Binary64.posInf => Binary64.posInf
  | Binary64.negInf, _ => Binary64.negInf
  | _, Binary64.negInf => Binary64.negInf

/-- Subtraction of `double`s. -/
def Binary64.sub (a b : Binary64) : Binary64 :=
  Binary64.add a (Binary64.neg b)

/-- The product of an infinity of sign `neg` with a finite `q`. -/
def Binary64.infTimes (neg : Bool) (q : ℚ) : Binary64 :=
  if q = 0 then Binary64.nan
  else if 0 < q then (if neg then Binary64.negInf else Binary64.posInf)
  else (if neg then Binary64.posInf else Binary64.negInf)

/-- Multiplication of `double`s. -/
def Binary64.mul : Binary64 → Binary64 → Binary64
  | Binary64.finite a, Binary64.finite b => Binary64.ofRat (a * b)
  | Binary64.nan, _ => Binary64.nan
  | _, Binary64.nan => Binary64.nan
  | Binary64.posInf, Binary64.finite b => Binary64.infTimes false b
  | Binary64.negInf, Binary64.finite b => Binary64.infTimes true b
  | Binary64.finite a, Binary64.posInf => Binary64.infTimes false a
  | Binary64.finite a, Binary64.negInf => Binary64.infTimes true a
  | Binary64.posInf, Binary64.posInf => Binary64.posInf
  | Binary64.negInf, Binary64.negInf => Binary64.posInf
  | Binary64.posInf, Binary64.negInf => Binary64.negInf
  | Binary64.negInf, Binary64.posInf => Binary64.negInf

/-- The comparison `a <= b` of `double`s; false when either is NaN. -/
def Binary64.le : Binary64 → Binary64 → Prop
  | Binary64.nan, _ => False
  | _, Binary64.nan => False
  | Binary64.negInf, _ => True
  | _, Binary64.posInf => True
  | Binary64.finite a, Binary64.finite b => a ≤ b
  | Binary64.finite _, Binary64.negInf => False
  | Binary64.posInf, Binary64.finite _ => False
  | Binary64.posInf, Binary64.negInf => False

/-- The comparison `a < b` of `double`s; false when either is NaN. -/
def Binary64.lt : Binary64 → Binary64 → Prop
  | Binary64.nan, _ => False
  | _, Binary64.nan => False
  | Binary64.finite a, Binary64.finite b => a < b
  | Binary64.negInf, Binary64.negInf => False
  | Binary64.negInf, _ => True
  | Binary64.posInf, _ => False
  | Binary64.finite _, Binary64.posInf => True
  | Binary64.finite _, Binary64.negInf => False

/-- The literal `0.0`. -/
instance Binary64.instZero : Zero Binary64 :=
  ⟨Binary64.finite 0⟩

/-- The literal `1.0`. -/
instance Binary64.instOne : One Binary64 :=
  ⟨Binary64.finite 1⟩

/-- The operator `+` on `double`. -/
instance Binary64.instAdd : Add Binary64 :=
  ⟨Binary64.add⟩

/-- The operator `-` on `double`. -/
instance Binary64.instSub : Sub Binary64 :=
  ⟨Binary64.sub⟩

/-- The operator `*` on `double`. -/
instance Binary64.instMul : Mul Binary64 :=
  ⟨Binary64.mul⟩

/-- The operator `<=` on `double`. -/
instance Binary64.instLE : LE Binary64 :=
  ⟨Binary64.le⟩

/-- The operator `<` on `double`. -/
instance Binary64.instLT : LT Binary64 :=
  ⟨Binary64.lt⟩

/-- The values a `double` can hold: a finite value is on the grid and below
`2 ^ 1024` in magnitude. -/
def Binary64.IsValue : Binary64 → Prop
  | Binary64.finite q => roundToGrid q = q ∧ |q| < 2 ^ 1024
  | _ => True

/-- The comparison `<=` is decidable. -/
instance Binary64.decidableLe (a b : Binary64) : Decidable (a ≤ b) := by
  cases a <;> cases b <;> unfold LE.le Binary64.instLE Binary64.le <;> simp only <;>
    infer_instance

/-- The comparison `<` is decidable. -/
instance Binary64.decidableLt (a b : Binary64) : Decidable (a < b) := by
  cases a <;> cases b <;> unfold LT.lt Binary64.instLT Binary64.lt <;> simp only <;>
    infer_instance

/-- Being a `double` value is decidable. -/
instance Binary64.decidableIsValue (a : Binary64) : Decidable a.IsValue := by
  cases a <;> unfold Binary64.IsValue <;> simp only <;> infer_instance

/-- An item within the ranges the specification names: the base price is a
`double` value `>= 0`, and a discount fraction is a `double` value in
`[0, 1)`. -/
def Item.InRange (it : Item Binary64) : Prop :=
  it.basePrice.IsValue ∧ 0 ≤ it.basePrice ∧
    match it.strategy with
    | some (PricingStrategy.DiscountPricing f) => f.IsValue ∧ 0 ≤ f ∧ f < 1
    | _ => True

/-! ## The driver -/

/-- The member `DepartmentFactory::createDepartment`. -/
def DepartmentFactory.createDepartment {D : Type} (name : String) : Department D :=
  Department.new name

/-- The function `main`: the program state when it returns and the text
written.  `lit` converts the decimal literals of the source to `double`; the
departments `books`, `music` have the addresses `0`, `1` and the customer
`alice` the address `0`.  The member calls through `store` need a non-null
instance, which `init` has just provided. -/
def main {D : Type} [Zero D] [Add D] [One D] [Sub D] [Mul D] (lit : ℚ → D) :
    Except String (World D × List (Out D)) :=
  match Store.getInstance (Store.init none "Online Store") with
  | none => Except.error "null Store::instance"
  | some store => do
    let books : Department D := DepartmentFactory.createDepartment "Books"
    let music : Department D := DepartmentFactory.createDepartment "Music"
    let store := store.addDepartment 0
    let store := store.addDepartment 1
    let regular : PricingStrategy D := PricingStrategy.RegularPricing
    let discount ← DiscountPricing.new (lit (1 / 10))
    let (b1, books) ← books.addItem "C plus plus Basics" (lit 40) (some regular)
    let (b2, books) ← books.addItem "Data Structures Book" (lit 50) (some regular)
    let (m1, music) ← music.addItem "Greatest Hits Album" (lit 30) (some discount)
    let out1 := books.showItems
    let out2 := music.showItems
    let alice : Customer D := Customer.new "Alice"
    let (store, out3) := store.addCustomer 0 alice
    let alice := alice.addToCart (some b1)
    let alice := alice.addToCart (some b2)
    let alice := alice.addToCart (some m1)
    let out4 := store.checkout alice
    pure (World.mk (some store) [books, music] [alice], out1 ++ out2 ++ out3 ++ out4)

/-! ## Auxiliary facts -/

theorem ShoppingCart.items_addAll_some {D : Type} (c : ShoppingCart D) (refs : List (Item D)) :
    (c.addAll (refs.map some)).items = c.items ++ refs := by
  induction refs generalizing c with
  | nil => simp [ShoppingCart.addAll]
  | cons r rest ih =>
    have step : c.addAll ((r :: rest).map some) = (c.add (some r)).addAll (rest.map some) := rfl
    rw [step, ih]
    simp [ShoppingCart.add]

theorem foldl_add_eq_add_sum {D : Type} [Zero D] [Add D]
    (assoc : ∀ a b c : D, a + b + c = a + (b + c)) (add_zero_right : ∀ a : D, a + 0 = a)
    (xs : List D) (a : D) : xs.foldl (fun acc x => acc + x) a = a + xs.sum := by
  induction xs generalizing a with
  | nil => simp [add_zero_right]
  | cons x rest ih => simp [List.foldl_cons, List.sum_cons, ih, assoc]

theorem ShoppingCart.getTotal_eq_foldl_prices {D : Type} [Zero D] [Add D] [One D] [Sub D]
    [Mul D] (c : ShoppingCart D) :
    c.getTotal = (c.items.map Item.getPrice).foldl (fun acc x => acc + x) 0 := by
  simp [ShoppingCart.getTotal, List.foldl_map]

theorem toInt_of_lt (n : Nat) (h : n < 2147483648) : toInt n = (n : Int) := by
  unfold toInt
  split <;> omega

theorem Department.addItem_ok {D : Type} (d : Department D) (n : String) (p : D)
    (s : Option (PricingStrategy D)) :
    d.addItem n p s = Except.ok (Item.mk n p s, Department.mk d.name (d.items ++ [Item.mk n p s])) :=
  rfl

theorem Department.getItemByIndex_eq_getElem {D : Type} (d : Department D) (index : Int)
    (hlen : d.items.length < 2147483648) (h0 : 0 ≤ index) (h1 : index < d.items.length) :
    d.getItemByIndex index = d.items[index.toNat]? := by
  have hi : index.toNat < d.items.length := by omega
  have ht := toInt_of_lt _ hlen
  unfold Department.getItemByIndex
  split
  · next h => omega
  · rw [List.getElem?_eq_getElem hi]
    rfl

theorem Department.getItemByIndex_eq_none_of_out {D : Type} (d : Department D) (index : Int)
    (hlen : d.items.length < 2147483648) (h : index < 0 ∨ index ≥ d.items.length) :
    d.getItemByIndex index = none := by
  have ht := toInt_of_lt _ hlen
  unfold Department.getItemByIndex
  split
  · rfl
  · next hn => omega

theorem Department.getItemByIndex_eq_none_of_toInt_le {D : Type} (d : Department D)
    (index : Int) (h : index ≥ toInt d.items.length) : d.getItemByIndex index = none := by
  unfold Department.getItemByIndex
  split
  · rfl
  · next hn => exact absurd (Or.inr h) hn

theorem toInt_two_pow_31 : toInt 2147483648 = -2147483648 := by
  unfold toInt
  norm_num

theorem Department.getItemByIndex_eq_none_of_wrapped_count {D : Type} (name : String)
    (items : List (Item D)) (hlen : items.length = 2147483648) (index : Int)
    (h : -2147483648 ≤ index) : (Department.mk name items).getItemByIndex index = none := by
  apply Department.getItemByIndex_eq_none_of_toInt_le
  show index ≥ toInt items.length
  rw [hlen, toInt_two_pow_31]
  exact h

theorem StoreCall.run_some_keeps_name {D : Type} (calls : List (StoreCall D)) (s : Store) :
    ∃ t, StoreCall.run (some s) calls = some t ∧ t.name = s.name := by
  induction calls generalizing s with
  | nil => exact ⟨s, rfl, rfl⟩
  | cons call rest ih =>
    cases call with
    | init n => exact ih s
    | addDepartment d => exact ih (s.addDepartment d)
    | addCustomer c cObj => exact ih (s.addCustomer c cObj).1
    | checkout cObj => exact ih s

/-! ## Cart total -/

/-- C1: after adding a sequence of non-null item references to an empty cart,
`getTotal()` is the sum of `getPrice()` over the references in the order they
were added, one term per occurrence: it is the left-to-right accumulation from
`0.0` for every arithmetic, and it is the list sum whenever addition is
associative with `0.0` as its unit; the total of the empty cart is `0`. -/
theorem ShoppingCart.getTotal_addAll_eq_sum {D : Type} [Zero D] [Add D] [One D] [Sub D]
    [Mul D] (refs : List (Item D)) :
    (ShoppingCart.new.addAll (refs.map some)).getTotal
        = (refs.map Item.getPrice).foldl (fun acc x => acc + x) 0
      ∧ (ShoppingCart.new : ShoppingCart D).getTotal = 0
      ∧ ((∀ a b c : D, a + b + c = a + (b + c)) → (∀ a : D, 0 + a = a) →
          (∀ a : D, a + 0 = a) →
          (ShoppingCart.new.addAll (refs.map some)).getTotal
            = (refs.map Item.getPrice).sum) := by
  have hitems : (ShoppingCart.new.addAll (refs.map some)).items = refs := by
    rw [ShoppingCart.items_addAll_some]
    rfl
  refine ⟨?_, rfl, ?_⟩
  · rw [ShoppingCart.getTotal_eq_foldl_prices, hitems]
  · intro assoc zero_left zero_right
    rw [ShoppingCart.getTotal_eq_foldl_prices, hitems,
      foldl_add_eq_add_sum assoc zero_right, zero_left]

theorem ShoppingCart.getTotal_addAll_eq_sum_witness :
    (ShoppingCart.new.addAll ([Item.mk "pen" (2 : ℚ) none,
        Item.mk "ink" 3 (some PricingStrategy.RegularPricing),
        Item.mk "pen" 2 none].map some)).getTotal = 7 :=
  ((ShoppingCart.getTotal_addAll_eq_sum [Item.mk "pen" (2 : ℚ) none,
      Item.mk "ink" 3 (some PricingStrategy.RegularPricing),
      Item.mk "pen" 2 none]).2.2 add_assoc zero_add add_zero).trans
    (by norm_num [Item.getPrice, PricingStrategy.getPrice])

/-! ## Item prices -/

/-- C2: an item constructed with a null strategy, and an item constructed with
a `RegularPricing` strategy, both have `getPrice()` equal to the base price
given to the constructor. -/
theorem Item.getPrice_null_or_regular {D : Type} [One D] [Sub D] [Mul D] (n : String)
    (b : D) :
    Except.map Item.getPrice (Item.new n b none) = Except.ok b
      ∧ Except.map Item.getPrice (Item.new n b (some PricingStrategy.RegularPricing))
          = Except.ok b :=
  ⟨rfl, rfl⟩

/-- C3: an item with base price `b` bound to `DiscountPricing(f)` has
`getPrice()` equal to `b * (1 - f)`, and every one of `k` successive calls
returns that value. -/
theorem Item.getPrice_discount_repeatable {D : Type} [One D] [Sub D] [Mul D] (n : String)
    (b f : D) :
    ∃ s it, DiscountPricing.new f = Except.ok s ∧ Item.new n b (some s) = Except.ok it
      ∧ it.getPrice = b * (1 - f)
      ∧ ∀ k : Nat, it.getPriceTimes k = List.replicate k (b * (1 - f)) := by
  refine ⟨PricingStrategy.DiscountPricing f,
    Item.mk n b (some (PricingStrategy.DiscountPricing f)), rfl, rfl, rfl, ?_⟩
  intro k
  induction k with
  | zero => rfl
  | succ k ih =>
    rw [Item.getPriceTimes, ih, List.replicate_succ]
    rfl

/-! ## Lookup by position -/

/-- C4 fails on a department that reaches `2 ^ 31` items: the count after the
add converts to a negative `int`, so the lookup of the last position returns
`nullptr` instead of the item just added. -/
theorem Department.getItemByIndex_last_wraps :
    ∃ r dd,
      (Department.mk "Books" (List.replicate 2147483647 (Item.mk "a" (0 : ℚ) none))).addItem
          "b" 1 none = Except.ok (r, dd)
        ∧ ((dd.items.length : Int) - 1 = 2147483647)
        ∧ dd.getItemByIndex ((dd.items.length : Int) - 1) = none
        ∧ dd.getItemByIndex ((dd.items.length : Int) - 1) ≠ some r := by
  have hlen : (List.replicate 2147483647 (Item.mk "a" (0 : ℚ) none)
      ++ [Item.mk "b" 1 none]).length = 2147483648 := by
    rw [List.length_append, List.length_replicate, List.length_singleton]
  have hnone := Department.getItemByIndex_eq_none_of_wrapped_count "Books" _ hlen
    (((2147483648 : Nat) : Int) - 1) (by omega)
  refine ⟨_, _, Department.addItem_ok _ _ _ _, ?_, ?_, ?_⟩
  · dsimp only
    rw [hlen]
    omega
  · dsimp only
    rw [hlen]
    exact hnone
  · dsimp only
    rw [hlen, hnone]
    exact Option.noConfusion

/-- C4, amended: when the department holds fewer than `2 ^ 31 - 1` items before
the call, `addItem` returns the item built from its arguments and
`getItemByIndex(count - 1)`, with `count` the item count after the add, returns
that item. -/
theorem Department.getItemByIndex_last_after_addItem {D : Type} (d : Department D)
    (n : String) (p : D) (s : Option (PricingStrategy D))
    (hlen : d.items.length < 2147483647) :
    ∃ r dd, d.addItem n p s = Except.ok (r, dd) ∧ r = Item.mk n p s
      ∧ dd.getItemByIndex ((dd.items.length : Int) - 1) = some r := by
  refine ⟨_, _, Department.addItem_ok d n p s, rfl, ?_⟩
  rw [Department.getItemByIndex_eq_getElem]
  · simp
  · simp only [List.length_append, List.length_singleton]
    omega
  · simp only [List.length_append, List.length_singleton]
    omega
  · omega

theorem Department.getItemByIndex_last_after_addItem_witness :
    ∃ r dd,
      (Department.mk "Books" [Item.mk "C plus plus Basics" (40 : ℚ) none]).addItem
          "Data Structures Book" 50 none = Except.ok (r, dd)
        ∧ r = Item.mk "Data Structures Book" 50 none
        ∧ dd.getItemByIndex ((dd.items.length : Int) - 1) = some r :=
  Department.getItemByIndex_last_after_addItem _ _ _ _ (by decide)

/-- C5 fails on a department of `2 ^ 31` items: the count converts to a
negative `int`, and position `0`, which is inside the department, is reported
as not found. -/
theorem Department.getItemByIndex_zero_wraps :
    (Department.mk "Books" (List.replicate 2147483648 (Item.mk "a" (0 : ℚ) none))).getItemByIndex 0
        = none
      ∧ ¬ ((0 : Int) < 0 ∨ (0 : Int) ≥
          ((Department.mk "Books"
            (List.replicate 2147483648 (Item.mk "a" (0 : ℚ) none))).items.length : Int)) := by
  have hlen : (List.replicate 2147483648 (Item.mk "a" (0 : ℚ) none)).length = 2147483648 :=
    List.length_replicate _ _
  constructor
  · exact Department.getItemByIndex_eq_none_of_wrapped_count "Books" _ hlen 0 (by omega)
  · dsimp only
    rw [hlen]
    omega

/-- C5, amended: for a department whose item count `count` is at most
`2 ^ 31 - 1`, `getItemByIndex(index)` is `nullptr` exactly when `index < 0` or
`index >= count`; `getItemByIndex(-1)` and `getItemByIndex(count)` are
`nullptr`; and for `0 <= index < count` the result is the item stored at that
position. -/
theorem Department.getItemByIndex_none_iff {D : Type} (d : Department D) (index : Int)
    (hlen : d.items.length ≤ 2147483647) :
    (d.getItemByIndex index = none ↔ (index < 0 ∨ index ≥ (d.items.length : Int)))
      ∧ d.getItemByIndex (-1) = none
      ∧ d.getItemByIndex (d.items.length : Int) = none
      ∧ (0 ≤ index → index < (d.items.length : Int) →
          d.getItemByIndex index = d.items[index.toNat]?
            ∧ (d.getItemByIndex index).isSome = true) := by
  have hlt : d.items.length < 2147483648 := by omega
  have inside : 0 ≤ index → index < (d.items.length : Int) →
      d.getItemByIndex index = d.items[index.toNat]?
        ∧ (d.getItemByIndex index).isSome = true := by
    intro h0 h1
    have hi : index.toNat < d.items.length := by omega
    have e := Department.getItemByIndex_eq_getElem d index hlt h0 h1
    refine ⟨e, ?_⟩
    rw [e, List.getElem?_eq_getElem hi]
    rfl
  refine ⟨⟨?_, Department.getItemByIndex_eq_none_of_out d index hlt⟩,
    Department.getItemByIndex_eq_none_of_out d _ hlt (Or.inl (by decide)),
    Department.getItemByIndex_eq_none_of_out d _ hlt (Or.inr (le_refl _)), inside⟩
  intro hnone
  by_contra hin
  have h0 : 0 ≤ index := by omega
  have h1 : index < (d.items.length : Int) := by omega
  have hsome := (inside h0 h1).2
  rw [hnone] at hsome
  simp at hsome

theorem Department.getItemByIndex_none_iff_witness :
    (Department.mk "Books" [Item.mk "C plus plus Basics" (40 : ℚ) none,
        Item.mk "Data Structures Book" 50 none]).getItemByIndex 1
      = some (Item.mk "Data Structures Book" 50 none) :=
  ((Department.getItemByIndex_none_iff
    (Department.mk "Books" [Item.mk "C plus plus Basics" (40 : ℚ) none,
        Item.mk "Data Structures Book" 50 none]) 1 (by decide)).2.2.2
      (by decide) (by decide)).1

/-! ## Validation -/

/-- C6 fails at the fractions `2` and `-1`: both lie outside `[0, 1)` and the
constructor completes with the fraction stored as given. -/
theorem DiscountPricing.new_accepts_out_of_range :
    (1 : ℚ) ≤ 2 ∧ DiscountPricing.new (2 : ℚ) = Except.ok (PricingStrategy.DiscountPricing 2)
      ∧ (∀ e, DiscountPricing.new (2 : ℚ) ≠ Except.error e)
      ∧ (-1 : ℚ) < 0
      ∧ DiscountPricing.new (-1 : ℚ) = Except.ok (PricingStrategy.DiscountPricing (-1))
      ∧ (∀ e, DiscountPricing.new (-1 : ℚ) ≠ Except.error e) := by
  refine ⟨by norm_num, rfl, ?_, by norm_num, rfl, ?_⟩
  · intro e h
    cases h
  · intro e h
    cases h

/-- C6, amended: constructing a `DiscountPricing` completes for every fraction
`f`, inside or outside `[0, 1)`, never raises, and stores `f` unchanged as
`percent`. -/
theorem DiscountPricing.new_ok_for_every_fraction {D : Type} (f : D) :
    DiscountPricing.new f = Except.ok (PricingStrategy.DiscountPricing f)
      ∧ ∀ e, DiscountPricing.new f ≠ Except.error e := by
  refine ⟨rfl, ?_⟩
  intro e h
  cases h

/-- C7 fails at the base price `-1`: the constructor completes with
`basePrice = -1`, and `addItem` on the empty department returns that item and
leaves the department with it as a new entry. -/
theorem Item.new_accepts_negative_price :
    (-1 : ℚ) < 0
      ∧ Item.new "x" (-1 : ℚ) none = Except.ok (Item.mk "x" (-1) none)
      ∧ (Department.new "Books").addItem "x" (-1 : ℚ) none
          = Except.ok (Item.mk "x" (-1) none, Department.mk "Books" [Item.mk "x" (-1) none]) :=
  ⟨by norm_num, rfl, rfl⟩

/-- C7, amended: constructing an `Item` completes for every base price,
negative ones included, and stores the price unchanged; `addItem` with any
price returns the new item and leaves the department with that item appended
as its last entry, one entry more than before. -/
theorem Item.new_ok_for_every_price {D : Type} (n : String) (p : D)
    (s : Option (PricingStrategy D)) :
    Item.new n p s = Except.ok (Item.mk n p s)
      ∧ ∀ d : Department D, ∃ r dd, d.addItem n p s = Except.ok (r, dd)
          ∧ r.basePrice = p ∧ dd.items = d.items ++ [r]
          ∧ dd.items.length = d.items.length + 1 := by
  refine ⟨rfl, ?_⟩
  intro d
  exact ⟨_, _, Department.addItem_ok d n p s, rfl, rfl, by simp⟩

/-- In exact arithmetic `RegularPricing` never returns a negative price on a
base price `>= 0`, and `DiscountPricing(f)` returns a non-negative price on
every base price `>= 0` exactly when `f <= 1`. -/
theorem PricingStrategy.getPrice_nonneg_iff {D : Type} [LinearOrderedRing D] :
    (∀ b : D, 0 ≤ b → 0 ≤ (PricingStrategy.RegularPricing : PricingStrategy D).getPrice b)
      ∧ ∀ f : D, (∀ b : D, 0 ≤ b → 0 ≤ (PricingStrategy.DiscountPricing f).getPrice b)
          ↔ f ≤ 1 := by
  refine ⟨fun b hb => hb, fun f => ⟨?_, ?_⟩⟩
  · intro h
    have h1 := h 1 zero_le_one
    simp only [PricingStrategy.getPrice, one_mul, sub_nonneg] at h1
    exact h1
  · intro hf b hb
    exact mul_nonneg hb (sub_nonneg.2 hf)

/-! ## Store initialisation -/

/-- C9: `init(n1)` on the uninitialised store followed by `init(n2)` leaves the
name `n1`; and after `init(n1)` and any sequence of store calls, `init(n2)`
leaves the store with the name `n1` and with the departments and customers it
had. -/
theorem Store.init_twice_keeps_first {D : Type} (n1 n2 : String)
    (calls : List (StoreCall D)) :
    (Store.getInstance (Store.init (Store.init none n1) n2)).map Store.name = some n1
      ∧ ∃ s, StoreCall.run (Store.init none n1) calls = some s
          ∧ ∃ t, Store.getInstance (Store.init (some s) n2) = some t
            ∧ t.name = n1 ∧ t.departments = s.departments ∧ t.customers = s.customers := by
  refine ⟨rfl, ?_⟩
  obtain ⟨s, hs, hname⟩ := StoreCall.run_some_keeps_name calls (Store.new n1)
  exact ⟨s, hs, s, rfl, hname, rfl, rfl⟩

/-! ## Adding a null reference -/

/-- C10: `add(nullptr)` leaves the cart as it was: the same entries, the same
`getTotal()` and the same `showCart` text. -/
theorem ShoppingCart.add_null_noop {D : Type} [Zero D] [Add D] [One D] [Sub D] [Mul D]
    (c : ShoppingCart D) :
    c.add none = c ∧ (c.add none).items = c.items
      ∧ (c.add none).getTotal = c.getTotal ∧ (c.add none).showCart = c.showCart :=
  ⟨rfl, rfl, rfl, rfl⟩


/-! ## Further auxiliary facts -/

theorem ShoppingCart.items_addAll {D : Type} (c : ShoppingCart D)
    (refs : List (Option (Item D))) :
    (c.addAll refs).items = c.items ++ refs.reduceOption := by
  induction refs generalizing c with
  | nil => simp [ShoppingCart.addAll]
  | cons r rest ih =>
    have step : c.addAll (r :: rest) = (c.add r).addAll rest := rfl
    rw [step, ih]
    cases r with
    | none => simp [ShoppingCart.add, List.reduceOption_cons_of_none]
    | some it => simp [ShoppingCart.add, List.reduceOption_cons_of_some]

theorem ShoppingCart.showCartLines_eq_flatMap {D : Type} [One D] [Sub D] [Mul D]
    (items : List (Item D)) :
    ShoppingCart.showCartLines items
      = (items.map (fun it => (it.getName, it.getPrice))).flatMap Out.cartLine := by
  induction items with
  | nil => rfl
  | cons it rest ih =>
    rw [ShoppingCart.showCartLines, ih, List.map_cons, List.flatMap_cons]
    rfl

theorem Department.showItemsFrom_eq_flatMap {D : Type} [One D] [Sub D] [Mul D] (i : Nat)
    (items : List (Item D)) :
    Department.showItemsFrom i items
      = (Department.listItemsFrom i items).flatMap Out.itemLine := by
  induction items generalizing i with
  | nil => rfl
  | cons it rest ih =>
    rw [Department.showItemsFrom, ih, Department.listItemsFrom, List.flatMap_cons]
    rfl

theorem Department.listItemsFrom_length {D : Type} [One D] [Sub D] [Mul D] (i : Nat)
    (items : List (Item D)) : (Department.listItemsFrom i items).length = items.length := by
  induction items generalizing i with
  | nil => rfl
  | cons it rest ih => simp [Department.listItemsFrom, ih]

theorem Department.listItemsFrom_map_fst {D : Type} [One D] [Sub D] [Mul D] (i : Nat)
    (items : List (Item D)) :
    (Department.listItemsFrom i items).map (fun line => line.1)
      = List.range' i items.length := by
  induction items generalizing i with
  | nil => rfl
  | cons it rest ih => simp [Department.listItemsFrom, ih, List.range'_succ]

theorem Department.listItemsFrom_getElem {D : Type} [One D] [Sub D] [Mul D] (i k : Nat)
    (items : List (Item D)) :
    (Department.listItemsFrom i items)[k]?
      = items[k]?.map (fun it => (i + k, it.getName, it.getPrice)) := by
  induction items generalizing i k with
  | nil => rfl
  | cons it rest ih =>
    cases k with
    | zero => simp [Department.listItemsFrom]
    | succ k =>
      simp only [Department.listItemsFrom, List.getElem?_cons_succ, ih]
      congr 1
      funext x
      congr 1
      omega

theorem DepartmentCall.step_extends {D : Type} (d : Department D) (call : DepartmentCall D) :
    ∃ dd t, DepartmentCall.step d call = Except.ok dd ∧ dd.items = d.items ++ t := by
  cases call with
  | getName => exact ⟨d, [], rfl, by simp⟩
  | addItem n p s => exact ⟨_, [Item.mk n p s], rfl, rfl⟩
  | showItems => exact ⟨d, [], rfl, by simp⟩
  | getItemByIndex i => exact ⟨d, [], rfl, by simp⟩

theorem DepartmentCall.run_extends {D : Type} (d : Department D)
    (calls : List (DepartmentCall D)) :
    ∃ dd t, DepartmentCall.run d calls = Except.ok dd ∧ dd.items = d.items ++ t := by
  induction calls generalizing d with
  | nil => exact ⟨d, [], rfl, by simp⟩
  | cons call rest ih =>
    obtain ⟨d1, t1, h1, e1⟩ := DepartmentCall.step_extends d call
    obtain ⟨d2, t2, h2, e2⟩ := ih d1
    refine ⟨d2, t1 ++ t2, ?_, ?_⟩
    · rw [DepartmentCall.run, h1]
      exact h2
    · rw [e2, e1, List.append_assoc]

theorem StoreCall.step_some_extends {D : Type} (call : StoreCall D) (s : Store) :
    ∃ t, StoreCall.step (some s) call = some t ∧ t.name = s.name
      ∧ (∃ ds, t.departments = s.departments ++ ds)
      ∧ (∃ cs, t.customers = s.customers ++ cs) := by
  cases call with
  | init n => exact ⟨s, rfl, rfl, ⟨[], by simp⟩, ⟨[], by simp⟩⟩
  | addDepartment d => exact ⟨_, rfl, rfl, ⟨[d], rfl⟩, ⟨[], by simp [Store.addDepartment]⟩⟩
  | addCustomer c cObj =>
    exact ⟨_, rfl, rfl, ⟨[], by simp [Store.addCustomer]⟩, ⟨[c], rfl⟩⟩
  | checkout cObj => exact ⟨s, rfl, rfl, ⟨[], by simp⟩, ⟨[], by simp⟩⟩

theorem StoreCall.run_some_extends {D : Type} (calls : List (StoreCall D)) (s : Store) :
    ∃ t, StoreCall.run (some s) calls = some t ∧ t.name = s.name
      ∧ (∃ ds, t.departments = s.departments ++ ds)
      ∧ (∃ cs, t.customers = s.customers ++ cs) := by
  induction calls generalizing s with
  | nil => exact ⟨s, rfl, rfl, ⟨[], by simp⟩, ⟨[], by simp⟩⟩
  | cons call rest ih =>
    obtain ⟨s1, h1, n1, ⟨ds1, e1⟩, ⟨cs1, f1⟩⟩ := StoreCall.step_some_extends call s
    obtain ⟨s2, h2, n2, ⟨ds2, e2⟩, ⟨cs2, f2⟩⟩ := ih s1
    refine ⟨s2, ?_, n2.trans n1, ⟨ds1 ++ ds2, ?_⟩, ⟨cs1 ++ cs2, ?_⟩⟩
    · have unfold_run : StoreCall.run (some s) (call :: rest)
          = StoreCall.run (StoreCall.step (some s) call) rest := rfl
      rw [unfold_run, h1]
      exact h2
    · rw [e2, e1, List.append_assoc]
    · rw [f2, f1, List.append_assoc]

theorem StoreCall.run_append {D : Type} (inst : Option Store) (a b : List (StoreCall D)) :
    StoreCall.run inst (a ++ b) = StoreCall.run (StoreCall.run inst a) b := by
  simp [StoreCall.run, List.foldl_append]

theorem Department.getItemByIndex_mk_zero {D : Type} (name : String) (x : Item D)
    (rest : List (Item D)) (hlen : rest.length < 2147483647) :
    (Department.mk name (x :: rest)).getItemByIndex 0 = some x := by
  have h := Department.getItemByIndex_eq_getElem (Department.mk name (x :: rest)) 0
    (by simp only [List.length_cons]; omega) (le_refl 0)
    (by simp only [List.length_cons]; omega)
  rw [h]
  simp

/-! ## Checkout -/

/-- C11: in every program state with an initialised store and a live customer
`c`, `checkout(c)` leaves the whole state as it was (the customer's cart
entries, every department, the store's registries); the text it writes is the
cart listing followed by the total, and the total written is the cart's
`getTotal()`; a second checkout writes the same text. -/
theorem World.checkout_reads_only {D : Type} [Zero D] [Add D] [One D] [Sub D] [Mul D]
    (w : World D) (c : Addr) (s : Store) (cObj : Customer D) (hs : w.store = some s)
    (hc : w.customers[c]? = some cObj) :
    ∃ out, w.checkout c = some (w, out)
      ∧ out = [Out.str "Checkout for ", Out.str cObj.name, Out.endl] ++ cObj.cart.showCart
          ++ [Out.str "Total ", Out.dbl cObj.cart.getTotal, Out.endl]
      ∧ (w.checkout c).bind (fun r => r.1.checkout c) = some (w, out) := by
  have h : w.checkout c = some (w, s.checkout cObj) := by
    unfold World.checkout
    rw [hs, hc]
  exact ⟨s.checkout cObj, h, rfl, by rw [h, Option.some_bind, h]⟩

theorem World.checkout_reads_only_witness :
    ∃ out,
      (World.mk (some (Store.mk "Online Store" [0] [0]))
          [Department.mk "Books" [Item.mk "C plus plus Basics" (40 : ℚ) none]]
          [Customer.mk "Alice"
            (ShoppingCart.mk [Item.mk "C plus plus Basics" (40 : ℚ) none])]).checkout 0
        = some (World.mk (some (Store.mk "Online Store" [0] [0]))
            [Department.mk "Books" [Item.mk "C plus plus Basics" (40 : ℚ) none]]
            [Customer.mk "Alice"
              (ShoppingCart.mk [Item.mk "C plus plus Basics" (40 : ℚ) none])], out) :=
  (World.checkout_reads_only
    (World.mk (some (Store.mk "Online Store" [0] [0]))
      [Department.mk "Books" [Item.mk "C plus plus Basics" (40 : ℚ) none]]
      [Customer.mk "Alice" (ShoppingCart.mk [Item.mk "C plus plus Basics" (40 : ℚ) none])])
    0 (Store.mk "Online Store" [0] [0])
    (Customer.mk "Alice" (ShoppingCart.mk [Item.mk "C plus plus Basics" (40 : ℚ) none]))
    rfl rfl).imp (fun _ h => h.1)

/-! ## Index stability -/

/-- C12 fails on a department of `2 ^ 31 - 1` items: position `0` holds an item
before the add, and after the add the count converts to a negative `int`, so
the same position is reported as not found. -/
theorem Department.getItemByIndex_unstable_at_wrap :
    (Department.mk "Books" (Item.mk "a" (0 : ℚ) none
        :: List.replicate 2147483646 (Item.mk "c" (0 : ℚ) none))).getItemByIndex 0
        = some (Item.mk "a" 0 none)
      ∧ ∃ r dd,
          (Department.mk "Books" (Item.mk "a" (0 : ℚ) none
            :: List.replicate 2147483646 (Item.mk "c" (0 : ℚ) none))).addItem "b" 1 none
            = Except.ok (r, dd)
          ∧ dd.getItemByIndex 0 = none := by
  have hlen : (Item.mk "a" (0 : ℚ) none :: List.replicate 2147483646 (Item.mk "c" (0 : ℚ) none)
      ++ [Item.mk "b" 1 none]).length = 2147483648 := by
    rw [List.length_append, List.length_cons, List.length_replicate, List.length_singleton]
  have hrest : (List.replicate 2147483646 (Item.mk "c" (0 : ℚ) none)).length < 2147483647 := by
    rw [List.length_replicate]
    omega
  have hnone := Department.getItemByIndex_eq_none_of_wrapped_count "Books" _ hlen 0 (by omega)
  refine ⟨Department.getItemByIndex_mk_zero _ _ _ hrest, _, _,
    Department.addItem_ok _ _ _ _, ?_⟩
  dsimp only
  exact hnone

/-- C12, amended: for a department with `count` items, an index `i` with
`0 <= i < count` and any sequence of member calls (`addItem` among them), no
stored item is removed or moved and the count does not decrease; and when the
count afterwards is at most `2 ^ 31 - 1`, `getItemByIndex(i)` returns the same
item after the calls as before. -/
theorem Department.getItemByIndex_stable {D : Type} (d : Department D)
    (calls : List (DepartmentCall D)) (i : Int) (h0 : 0 ≤ i)
    (h1 : i < (d.items.length : Int)) :
    ∃ dd t, DepartmentCall.run d calls = Except.ok dd ∧ dd.items = d.items ++ t
      ∧ d.items.length ≤ dd.items.length
      ∧ (dd.items.length ≤ 2147483647 →
          dd.getItemByIndex i = d.getItemByIndex i
            ∧ (d.getItemByIndex i).isSome = true) := by
  obtain ⟨dd, t, hrun, hitems⟩ := DepartmentCall.run_extends d calls
  have hle : d.items.length ≤ dd.items.length := by
    rw [hitems, List.length_append]
    omega
  refine ⟨dd, t, hrun, hitems, hle, ?_⟩
  intro hbound
  have hi : i.toNat < d.items.length := by omega
  have e1 := Department.getItemByIndex_eq_getElem d i (by omega) h0 h1
  have e2 := Department.getItemByIndex_eq_getElem dd i (by omega) h0 (by omega)
  refine ⟨?_, ?_⟩
  · rw [e1, e2, hitems, List.getElem?_append_left hi]
  · rw [e1, List.getElem?_eq_getElem hi]
    rfl

theorem Department.getItemByIndex_stable_witness :
    ∃ dd t,
      DepartmentCall.run (Department.mk "Books" [Item.mk "C plus plus Basics" (40 : ℚ) none])
          [DepartmentCall.addItem "Data Structures Book" 50 none] = Except.ok dd
        ∧ dd.items = [Item.mk "C plus plus Basics" (40 : ℚ) none] ++ t
        ∧ [Item.mk "C plus plus Basics" (40 : ℚ) none].length ≤ dd.items.length
        ∧ (dd.items.length ≤ 2147483647 →
            dd.getItemByIndex 0
                = (Department.mk "Books"
                    [Item.mk "C plus plus Basics" (40 : ℚ) none]).getItemByIndex 0
              ∧ ((Department.mk "Books"
                    [Item.mk "C plus plus Basics" (40 : ℚ) none]).getItemByIndex 0).isSome
                  = true) :=
  Department.getItemByIndex_stable
    (Department.mk "Books" [Item.mk "C plus plus Basics" (40 : ℚ) none])
    [DepartmentCall.addItem "Data Structures Book" 50 none] 0 (by decide) (by decide)

/-! ## Customer delegation -/

/-- C15: for every customer and every item reference, null or not,
`addToCart(item)` leaves the cart in the state `add(item)` produces on it and
leaves the customer's name unchanged. -/
theorem Customer.addToCart_delegates {D : Type} (c : Customer D) (item : Option (Item D)) :
    (c.addToCart item).getCart = c.getCart.add item
      ∧ (c.addToCart item).getName = c.getName :=
  ⟨rfl, rfl⟩

/-! ## Listings -/

/-- C16: after any sequence of adds to an empty cart, the text of `showCart`
is the heading followed by one line per non-null add, in insertion order, the
line of an item carrying its `getName()` and `getPrice()`; the number of lines
is the number of non-null adds. -/
theorem ShoppingCart.showCart_lists_adds {D : Type} [One D] [Sub D] [Mul D]
    (refs : List (Option (Item D))) :
    (ShoppingCart.new.addAll refs).showCart
        = [Out.str "Items in cart", Out.endl]
          ++ ((ShoppingCart.new.addAll refs).list).flatMap Out.cartLine
      ∧ (ShoppingCart.new.addAll refs).list
          = refs.reduceOption.map (fun it => (it.getName, it.getPrice))
      ∧ ((ShoppingCart.new.addAll refs).list).length
          = (refs.filter (fun r => r.isSome)).length
      ∧ ∀ items : List (Item D),
          (ShoppingCart.new.addAll (items.map some)).list
            = items.map (fun it => (it.getName, it.getPrice)) := by
  have hitems : (ShoppingCart.new.addAll refs).items = refs.reduceOption := by
    rw [ShoppingCart.items_addAll]
    rfl
  refine ⟨?_, ?_, ?_, ?_⟩
  · rw [ShoppingCart.showCart, ShoppingCart.showCartLines_eq_flatMap]
    rfl
  · rw [ShoppingCart.list, hitems]
  · rw [ShoppingCart.list, hitems, List.length_map, List.reduceOption_length_eq]
  · intro items
    rw [ShoppingCart.list, ShoppingCart.items_addAll_some]
    rfl

/-- C17 fails on a department of `2 ^ 31` items: `showItems` writes a line
for position `0`, while `getItemByIndex(0)` returns no item, the count having
converted to a negative `int`. -/
theorem Department.showItems_line_without_lookup :
    (∃ rest,
        (Department.mk "Books" (Item.mk "a" (0 : ℚ) none
            :: List.replicate 2147483647 (Item.mk "c" (0 : ℚ) none))).showItems
          = [Out.str "Items in ", Out.str "Books", Out.str " department", Out.endl]
            ++ Out.itemLine (0, "a", 0) ++ rest)
      ∧ (Department.mk "Books" (Item.mk "a" (0 : ℚ) none
            :: List.replicate 2147483647 (Item.mk "c" (0 : ℚ) none))).getItemByIndex 0
          = none := by
  constructor
  · refine ⟨Department.showItemsFrom 1 (List.replicate 2147483647 (Item.mk "c" (0 : ℚ) none))
      ++ [Out.endl], ?_⟩
    rw [Department.showItems]
    dsimp only
    rw [Department.showItemsFrom]
    simp only [List.append_assoc]
    rfl
  · exact Department.getItemByIndex_eq_none_of_wrapped_count "Books" _
      (by rw [List.length_cons, List.length_replicate]) 0 (by omega)

/-- C17, amended: `showItems` writes the heading, one line per item and a
closing line break; there are exactly `count` item lines, their indices are
`0, 1, …, count - 1` in that order, and line `i` carries the name and
`getPrice()` of the item stored at position `i`, which is the item
`getItemByIndex(i)` returns when `count` is at most `2 ^ 31 - 1`; the call
leaves the department unchanged. -/
theorem Department.showItems_lists_items {D : Type} [One D] [Sub D] [Mul D]
    (d : Department D) :
    d.showItems = [Out.str "Items in ", Out.str d.name, Out.str " department", Out.endl]
        ++ d.listItems.flatMap Out.itemLine ++ [Out.endl]
      ∧ d.listItems.length = d.items.length
      ∧ d.listItems.map (fun line => line.1) = List.range d.items.length
      ∧ (∀ i : Nat, i < d.items.length → ∃ it, d.items[i]? = some it
          ∧ d.listItems[i]? = some (i, it.getName, it.getPrice)
          ∧ (d.items.length ≤ 2147483647 → d.getItemByIndex (i : Int) = some it))
      ∧ DepartmentCall.step d DepartmentCall.showItems = Except.ok d := by
  refine ⟨?_, Department.listItemsFrom_length 0 d.items, ?_, ?_, rfl⟩
  · rw [Department.showItems, Department.showItemsFrom_eq_flatMap]
    rfl
  · rw [Department.listItems, Department.listItemsFrom_map_fst, List.range_eq_range']
  · intro i hi
    refine ⟨d.items[i], List.getElem?_eq_getElem hi, ?_, ?_⟩
    · rw [Department.listItems, Department.listItemsFrom_getElem, List.getElem?_eq_getElem hi]
      simp
    · intro hbound
      rw [Department.getItemByIndex_eq_getElem d (i : Int) (by omega) (by omega) (by omega)]
      simp [List.getElem?_eq_getElem hi]

/-! ## Store lifecycle -/

/-- C18: before any `init` the instance is null; after `init(n)` it is a store
named `n`; and after any further sequence of `init`, `addDepartment`,
`addCustomer` and `checkout` calls the instance is still non-null and named
`n`, it holds everything registered at any earlier point in the order it was
registered, and a further `init` leaves it as it is. -/
theorem Store.instance_lifecycle {D : Type} (n : String) (calls later : List (StoreCall D)) :
    Store.getInstance none = none
      ∧ Store.getInstance (Store.init none n) = some (Store.new n)
      ∧ (Store.new n).name = n
      ∧ ∃ s t, Store.getInstance (StoreCall.run (Store.init none n) calls) = some s
          ∧ Store.getInstance (StoreCall.run (Store.init none n) (calls ++ later)) = some t
          ∧ s.name = n ∧ t.name = n
          ∧ (∃ ds, t.departments = s.departments ++ ds)
          ∧ (∃ cs, t.customers = s.customers ++ cs)
          ∧ ∀ n2, Store.getInstance (Store.init (some t) n2) = some t := by
  refine ⟨rfl, rfl, rfl, ?_⟩
  obtain ⟨s, hs, hname, _, _⟩ := StoreCall.run_some_extends calls (Store.new n)
  obtain ⟨t, ht, hname2, hd, hc⟩ := StoreCall.run_some_extends later s
  have hs1 : StoreCall.run (Store.init none n) calls = some s := hs
  refine ⟨s, t, hs1, ?_, hname, hname2.trans hname, hd, hc, fun _ => rfl⟩
  rw [StoreCall.run_append, hs1]
  exact ht

/-! ## Adding an item to a cart -/

/-- C19: for every cart and every non-null item, `getTotal()` after
`add(item)` is `getTotal()` before the add plus `item.getPrice()`; the item is
appended last and every entry held before keeps its position. -/
theorem ShoppingCart.getTotal_add {D : Type} [Zero D] [Add D] [One D] [Sub D] [Mul D]
    (c : ShoppingCart D) (it : Item D) :
    (c.add (some it)).getTotal = c.getTotal + it.getPrice
      ∧ (c.add (some it)).items = c.items ++ [it]
      ∧ ∀ i : Nat, i < c.items.length → (c.add (some it)).items[i]? = c.items[i]? := by
  refine ⟨?_, rfl, ?_⟩
  · simp [ShoppingCart.getTotal, ShoppingCart.add, List.foldl_append]
  · intro i hi
    exact List.getElem?_append_left hi

/-! ## Facts about binary64 rounding -/

theorem roundHalfEven_ge_floor (x : ℚ) : ⌊x⌋ ≤ roundHalfEven x := by
  unfold roundHalfEven
  split_ifs <;> omega

theorem roundHalfEven_le_floor_succ (x : ℚ) : roundHalfEven x ≤ ⌊x⌋ + 1 := by
  unfold roundHalfEven
  split_ifs <;> omega

theorem roundHalfEven_intCast (n : Int) : roundHalfEven (n : ℚ) = n := by
  unfold roundHalfEven
  rw [Int.floor_intCast]
  norm_num

theorem roundHalfEven_mono {x y : ℚ} (h : x ≤ y) : roundHalfEven x ≤ roundHalfEven y := by
  rcases lt_or_eq_of_le (Int.floor_mono h) with hlt | heq
  · calc roundHalfEven x ≤ ⌊x⌋ + 1 := roundHalfEven_le_floor_succ x
      _ ≤ ⌊y⌋ := hlt
      _ ≤ roundHalfEven y := roundHalfEven_ge_floor y
  · have hfr : x - ⌊x⌋ ≤ y - ⌊y⌋ := by
      rw [heq]
      linarith
    unfold roundHalfEven
    rw [heq]
    split_ifs <;> first | omega | (exfalso; linarith)

theorem roundHalfEven_eq_of_near (x : ℚ) (k : Int) (h : |x - k| < 1 / 2) :
    roundHalfEven x = k := by
  have h1 := (abs_lt.1 h).1
  have h2 := (abs_lt.1 h).2
  by_cases hk : (k : ℚ) ≤ x
  · have hf : ⌊x⌋ = k := Int.floor_eq_iff.2 ⟨hk, by linarith⟩
    unfold roundHalfEven
    rw [hf]
    split_ifs <;> rfl
  · have hf : ⌊x⌋ = k - 1 := Int.floor_eq_iff.2 ⟨by push_cast; linarith, by push_cast; linarith⟩
    unfold roundHalfEven
    rw [hf]
    push_cast
    split_ifs <;> first | omega | (exfalso; linarith)

theorem log_two_eq_of_bounds {q : ℚ} {e : Int} (hq : 0 < q) (h1 : (2 : ℚ) ^ e ≤ q)
    (h2 : q < (2 : ℚ) ^ (e + 1)) : Int.log 2 q = e := by
  have a : e ≤ Int.log 2 q := by
    rw [← Int.zpow_le_iff_le_log one_lt_two hq]
    simpa using h1
  have b : Int.log 2 q < e + 1 := by
    rw [← Int.lt_zpow_iff_log_lt one_lt_two hq]
    simpa using h2
  omega

theorem two_zpow_log_le {q : ℚ} (hq : 0 < q) : (2 : ℚ) ^ Int.log 2 q ≤ q := by
  simpa using Int.zpow_log_le_self (b := 2) one_lt_two hq

theorem lt_two_zpow_log_succ (q : ℚ) : q < (2 : ℚ) ^ (Int.log 2 q + 1) := by
  simpa using Int.lt_zpow_succ_log_self (b := 2) one_lt_two q

theorem roundToGrid_zero : roundToGrid 0 = 0 := by
  unfold roundToGrid
  rw [zero_div]
  have h := roundHalfEven_intCast 0
  rw [Int.cast_zero] at h
  rw [h, Int.cast_zero, zero_mul]

theorem roundToGrid_nonneg {q : ℚ} (hq : 0 ≤ q) : 0 ≤ roundToGrid q := by
  unfold roundToGrid
  have hu : (0 : ℚ) < 2 ^ ulpExp q := zpow_pos (by norm_num) _
  have h0 : (0 : Int) ≤ roundHalfEven (q / 2 ^ ulpExp q) := by
    have h := roundHalfEven_mono (div_nonneg hq hu.le)
    have hz := roundHalfEven_intCast 0
    rw [Int.cast_zero] at hz
    rw [hz] at h
    exact h
  exact mul_nonneg (by exact_mod_cast h0) hu.le

theorem ulpExp_mono_pos {q r : ℚ} (hq : 0 < q) (h : q ≤ r) : ulpExp q ≤ ulpExp r := by
  unfold ulpExp
  rw [abs_of_pos hq, abs_of_pos (lt_of_lt_of_le hq h)]
  have := Int.log_mono_right (b := 2) hq h
  omega

theorem roundToGrid_le_two_zpow {q : ℚ} (hq : 0 < q) :
    roundToGrid q ≤ (2 : ℚ) ^ (ulpExp q + 53) := by
  unfold roundToGrid
  have hu : (0 : ℚ) < 2 ^ ulpExp q := zpow_pos (by norm_num) _
  have hlog : Int.log 2 q + 1 ≤ ulpExp q + 53 := by
    unfold ulpExp
    rw [abs_of_pos hq]
    omega
  have hq2 : q ≤ (2 : ℚ) ^ (ulpExp q + 53) :=
    (lt_two_zpow_log_succ q).le.trans (zpow_le_zpow_right₀ (by norm_num) hlog)
  have hdiv : q / 2 ^ ulpExp q ≤ ((2 ^ 53 : Int) : ℚ) := by
    have e : (2 : ℚ) ^ (ulpExp q + 53) = 9007199254740992 * 2 ^ ulpExp q := by
      rw [zpow_add₀ (by norm_num : (2 : ℚ) ≠ 0), mul_comm]
      norm_num
    rw [div_le_iff₀ hu]
    push_cast
    rw [← e]
    exact hq2
  have hr := roundHalfEven_mono hdiv
  rw [roundHalfEven_intCast] at hr
  have hr2 : (roundHalfEven (q / 2 ^ ulpExp q) : ℚ) ≤ 2 ^ 53 := by exact_mod_cast hr
  calc (roundHalfEven (q / 2 ^ ulpExp q) : ℚ) * 2 ^ ulpExp q
      ≤ 2 ^ 53 * 2 ^ ulpExp q := mul_le_mul_of_nonneg_right hr2 hu.le
    _ = (2 : ℚ) ^ (ulpExp q + 53) := by
      rw [zpow_add₀ (by norm_num : (2 : ℚ) ≠ 0), mul_comm]
      norm_num

theorem two_zpow_le_roundToGrid {r : ℚ} (hr : 0 < r) (hnorm : -1074 < ulpExp r) :
    (2 : ℚ) ^ (ulpExp r + 52) ≤ roundToGrid r := by
  unfold roundToGrid
  have hu : (0 : ℚ) < 2 ^ ulpExp r := zpow_pos (by norm_num) _
  have hlog : ulpExp r + 52 = Int.log 2 r := by
    unfold ulpExp at hnorm ⊢
    rw [abs_of_pos hr] at hnorm ⊢
    omega
  have hr2 : (2 : ℚ) ^ (ulpExp r + 52) ≤ r := by
    rw [hlog]
    exact two_zpow_log_le hr
  have hdiv : ((2 ^ 52 : Int) : ℚ) ≤ r / 2 ^ ulpExp r := by
    have e : (2 : ℚ) ^ (ulpExp r + 52) = 4503599627370496 * 2 ^ ulpExp r := by
      rw [zpow_add₀ (by norm_num : (2 : ℚ) ≠ 0), mul_comm]
      norm_num
    rw [le_div_iff₀ hu]
    push_cast
    rw [← e]
    exact hr2
  have h := roundHalfEven_mono hdiv
  rw [roundHalfEven_intCast] at h
  have h2 : (2 : ℚ) ^ 52 ≤ (roundHalfEven (r / 2 ^ ulpExp r) : ℚ) := by exact_mod_cast h
  calc (2 : ℚ) ^ (ulpExp r + 52) = 2 ^ 52 * 2 ^ ulpExp r := by
        rw [zpow_add₀ (by norm_num : (2 : ℚ) ≠ 0), mul_comm]
        norm_num
    _ ≤ (roundHalfEven (r / 2 ^ ulpExp r) : ℚ) * 2 ^ ulpExp r :=
        mul_le_mul_of_nonneg_right h2 hu.le

theorem roundToGrid_mono_nonneg {q r : ℚ} (hq : 0 ≤ q) (h : q ≤ r) :
    roundToGrid q ≤ roundToGrid r := by
  rcases eq_or_lt_of_le hq with h0 | hpos
  · rw [← h0, roundToGrid_zero]
    exact roundToGrid_nonneg (hq.trans h)
  · have hr : 0 < r := lt_of_lt_of_le hpos h
    rcases eq_or_lt_of_le (ulpExp_mono_pos hpos h) with he | hlt
    · unfold roundToGrid
      rw [he]
      have hu : (0 : ℚ) < 2 ^ ulpExp r := zpow_pos (by norm_num) _
      have hd : q / 2 ^ ulpExp r ≤ r / 2 ^ ulpExp r := div_le_div_of_nonneg_right h hu.le
      have := roundHalfEven_mono hd
      exact mul_le_mul_of_nonneg_right (by exact_mod_cast this) hu.le
    · have hlow : -1074 ≤ ulpExp q := by
        unfold ulpExp
        omega
      calc roundToGrid q ≤ (2 : ℚ) ^ (ulpExp q + 53) := roundToGrid_le_two_zpow hpos
        _ ≤ (2 : ℚ) ^ (ulpExp r + 52) := zpow_le_zpow_right₀ (by norm_num) (by omega)
        _ ≤ roundToGrid r := two_zpow_le_roundToGrid hr (by omega)

theorem ulpExp_eq_of_bounds {q : ℚ} {e : Int} (hq : 0 < q) (h1 : (2 : ℚ) ^ e ≤ q)
    (h2 : q < (2 : ℚ) ^ (e + 1)) (he : -1022 ≤ e) : ulpExp q = e - 52 := by
  unfold ulpExp
  rw [abs_of_pos hq, log_two_eq_of_bounds hq h1 h2]
  omega

theorem roundToGrid_eq_of_near {q : ℚ} {e : Int} (k : Int) (hq : 0 < q)
    (h1 : (2 : ℚ) ^ e ≤ q) (h2 : q < (2 : ℚ) ^ (e + 1)) (he : -1022 ≤ e)
    (hk : |q / 2 ^ (e - 52) - k| < 1 / 2) : roundToGrid q = k * 2 ^ (e - 52) := by
  unfold roundToGrid
  rw [ulpExp_eq_of_bounds hq h1 h2 he, roundHalfEven_eq_of_near _ k hk]

theorem roundToGrid_one : roundToGrid 1 = 1 := by
  have h := roundToGrid_eq_of_near (q := 1) (e := 0) 4503599627370496 (by norm_num)
    (by norm_num) (by norm_num) (by norm_num) (by norm_num)
  rw [h]
  norm_num

theorem roundToGrid_two_zpow_neg_53 : roundToGrid (1 / 2 ^ 53) = 1 / 2 ^ 53 := by
  have h := roundToGrid_eq_of_near (q := 1 / 2 ^ 53) (e := -53) 4503599627370496
    (by norm_num) (by norm_num) (by norm_num) (by norm_num) (by norm_num)
  rw [h]
  norm_num

theorem le_pred_one_of_onGrid {f : ℚ} (hgrid : roundToGrid f = f) (h0 : 0 ≤ f) (h1 : f < 1) :
    f ≤ 1 - 1 / 2 ^ 53 := by
  rcases eq_or_lt_of_le h0 with hz | hpos
  · rw [← hz]
    norm_num
  · have hlog : Int.log 2 f < 0 := by
      rw [← Int.lt_zpow_iff_log_lt one_lt_two hpos]
      simpa using h1
    by_cases hL : Int.log 2 f = -1
    · have hu : ulpExp f = -53 := by
        unfold ulpExp
        rw [abs_of_pos hpos, hL]
        rfl
      unfold roundToGrid at hgrid
      rw [hu] at hgrid
      have hk : (roundHalfEven (f / 2 ^ (-53 : Int)) : ℚ) < ((2 ^ 53 : Int) : ℚ) := by
        have hlt : (roundHalfEven (f / 2 ^ (-53 : Int)) : ℚ) * 2 ^ (-53 : Int) < 1 := by
          rw [hgrid]
          exact h1
        have hp : (0 : ℚ) < 2 ^ (-53 : Int) := zpow_pos (by norm_num) _
        have := (lt_div_iff₀ hp).2 hlt
        calc (roundHalfEven (f / 2 ^ (-53 : Int)) : ℚ) < 1 / 2 ^ (-53 : Int) := this
          _ = ((2 ^ 53 : Int) : ℚ) := by norm_num
      have hk2 : roundHalfEven (f / 2 ^ (-53 : Int)) ≤ 2 ^ 53 - 1 := by
        have : roundHalfEven (f / 2 ^ (-53 : Int)) < 2 ^ 53 := by exact_mod_cast hk
        omega
      have hk3 : (roundHalfEven (f / 2 ^ (-53 : Int)) : ℚ) ≤ 2 ^ 53 - 1 := by
        exact_mod_cast hk2
      calc f = (roundHalfEven (f / 2 ^ (-53 : Int)) : ℚ) * 2 ^ (-53 : Int) := hgrid.symm
        _ ≤ (2 ^ 53 - 1) * 2 ^ (-53 : Int) :=
          mul_le_mul_of_nonneg_right hk3 (zpow_pos (by norm_num) _).le
        _ = 1 - 1 / 2 ^ 53 := by norm_num
    · have hL2 : Int.log 2 f + 1 ≤ -1 := by omega
      have := (lt_two_zpow_log_succ f).le.trans
        (zpow_le_zpow_right₀ (by norm_num : (1 : ℚ) ≤ 2) hL2)
      calc f ≤ (2 : ℚ) ^ (-1 : Int) := this
        _ ≤ 1 - 1 / 2 ^ 53 := by norm_num

theorem Binary64.ofRat_eq_finite {q : ℚ} (h0 : 0 ≤ q) (h : roundToGrid q < 2 ^ 1024) :
    Binary64.ofRat q = Binary64.finite (roundToGrid q) := by
  unfold Binary64.ofRat
  have hn := roundToGrid_nonneg h0
  rw [if_neg (not_le.2 h), if_neg]
  intro hle
  have : (0 : ℚ) < 2 ^ 1024 := by positivity
  linarith

theorem Binary64.ofRat_nonneg_cases {q : ℚ} (h0 : 0 ≤ q) :
    Binary64.ofRat q = Binary64.finite (roundToGrid q) ∨ Binary64.ofRat q = Binary64.posInf := by
  by_cases h : roundToGrid q < 2 ^ 1024
  · exact Or.inl (Binary64.ofRat_eq_finite h0 h)
  · right
    unfold Binary64.ofRat
    rw [if_pos (not_lt.1 h)]

theorem Binary64.nonneg_cases {b : Binary64} (h : 0 ≤ b) :
    (∃ q, b = Binary64.finite q ∧ 0 ≤ q) ∨ b = Binary64.posInf := by
  cases b with
  | finite q => exact Or.inl ⟨q, rfl, h⟩
  | posInf => exact Or.inr rfl
  | negInf => exact False.elim h
  | nan => exact False.elim h

theorem Binary64.le_refl_of_nonneg {b : Binary64} (h : 0 ≤ b) : b ≤ b := by
  rcases Binary64.nonneg_cases h with ⟨q, rfl, _⟩ | rfl
  · exact le_refl q
  · exact True.intro

theorem Binary64.ofRat_mono_nonneg {q r : ℚ} (h0 : 0 ≤ q) (h : q ≤ r) :
    0 ≤ Binary64.ofRat q ∧ Binary64.ofRat q ≤ Binary64.ofRat r := by
  have hg := roundToGrid_mono_nonneg h0 h
  have hq0 := roundToGrid_nonneg h0
  rcases Binary64.ofRat_nonneg_cases (h0.trans h) with hr | hr
  · have hrlt : roundToGrid r < 2 ^ 1024 := by
      by_contra hn
      unfold Binary64.ofRat at hr
      rw [if_pos (not_lt.1 hn)] at hr
      cases hr
    rw [hr, Binary64.ofRat_eq_finite h0 (lt_of_le_of_lt hg hrlt)]
    exact ⟨hq0, hg⟩
  · rw [hr]
    rcases Binary64.ofRat_nonneg_cases h0 with hq | hq
    · rw [hq]
      exact ⟨hq0, True.intro⟩
    · rw [hq]
      exact ⟨True.intro, True.intro⟩

theorem Binary64.add_mono_nonneg {x y p q : Binary64} (hx : 0 ≤ x) (hxy : x ≤ y)
    (hp : 0 ≤ p) (hpq : p ≤ q) : 0 ≤ x + p ∧ x + p ≤ y + q := by
  rcases Binary64.nonneg_cases hx with ⟨a, rfl, ha⟩ | rfl
  · rcases Binary64.nonneg_cases hp with ⟨c, rfl, hc⟩ | rfl
    · have hsum0 : 0 ≤ Binary64.finite a + Binary64.finite c :=
        (Binary64.ofRat_mono_nonneg (add_nonneg ha hc) (le_refl _)).1
      refine ⟨hsum0, ?_⟩
      cases y with
      | finite b =>
        cases q with
        | finite d =>
          exact (Binary64.ofRat_mono_nonneg (add_nonneg ha hc)
            (add_le_add (show a ≤ b from hxy) (show c ≤ d from hpq))).2
        | posInf =>
          rcases Binary64.nonneg_cases hsum0 with ⟨s, hs, _⟩ | hs <;> rw [hs] <;>
            exact True.intro
        | negInf => exact False.elim hpq
        | nan => exact False.elim hpq
      | posInf =>
        cases q with
        | finite d =>
          rcases Binary64.nonneg_cases hsum0 with ⟨s, hs, _⟩ | hs <;> rw [hs] <;>
            exact True.intro
        | posInf =>
          rcases Binary64.nonneg_cases hsum0 with ⟨s, hs, _⟩ | hs <;> rw [hs] <;>
            exact True.intro
        | negInf => exact False.elim hpq
        | nan => exact False.elim hpq
      | negInf => exact False.elim hxy
      | nan => exact False.elim hxy
    · cases q with
      | posInf =>
        cases y with
        | finite b => exact ⟨True.intro, True.intro⟩
        | posInf => exact ⟨True.intro, True.intro⟩
        | negInf => exact False.elim hxy
        | nan => exact False.elim hxy
      | finite d => exact False.elim hpq
      | negInf => exact False.elim hpq
      | nan => exact False.elim hpq
  · cases y with
    | posInf =>
      rcases Binary64.nonneg_cases hp with ⟨c, rfl, hc⟩ | rfl
      · cases q with
        | finite d => exact ⟨True.intro, True.intro⟩
        | posInf => exact ⟨True.intro, True.intro⟩
        | negInf => exact False.elim hpq
        | nan => exact False.elim hpq
      · cases q with
        | posInf => exact ⟨True.intro, True.intro⟩
        | finite d => exact False.elim hpq
        | negInf => exact False.elim hpq
        | nan => exact False.elim hpq
    | finite b => exact False.elim hxy
    | negInf => exact False.elim hxy
    | nan => exact False.elim hxy

theorem Binary64.ofRat_eq_of_near {q : ℚ} {e : Int} (k : Int) (r : ℚ) (hq : 0 < q)
    (h1 : (2 : ℚ) ^ e ≤ q) (h2 : q < (2 : ℚ) ^ (e + 1)) (he : -1022 ≤ e)
    (hk : |q / 2 ^ (e - 52) - k| < 1 / 2) (hr : (k : ℚ) * 2 ^ (e - 52) = r)
    (hsmall : r < 2 ^ 1024) : Binary64.ofRat q = Binary64.finite r := by
  have hg : roundToGrid q = r := by rw [roundToGrid_eq_of_near k hq h1 h2 he hk, hr]
  rw [Binary64.ofRat_eq_finite hq.le (by rw [hg]; exact hsmall), hg]

theorem Binary64.ofRat_tenth :
    Binary64.ofRat (1 / 10) = Binary64.finite (3602879701896397 / 36028797018963968) :=
  Binary64.ofRat_eq_of_near (e := -4) 7205759403792794 _ (by norm_num) (by norm_num)
    (by norm_num) (by norm_num) (by norm_num [abs_lt]) (by norm_num) (by norm_num)

theorem Binary64.ofRat_thirty : Binary64.ofRat 30 = Binary64.finite 30 :=
  Binary64.ofRat_eq_of_near (e := 4) 8444249301319680 _ (by norm_num) (by norm_num)
    (by norm_num) (by norm_num) (by norm_num [abs_lt]) (by norm_num) (by norm_num)

theorem Binary64.ofRat_forty : Binary64.ofRat 40 = Binary64.finite 40 :=
  Binary64.ofRat_eq_of_near (e := 5) 5629499534213120 _ (by norm_num) (by norm_num)
    (by norm_num) (by norm_num) (by norm_num [abs_lt]) (by norm_num) (by norm_num)

theorem Binary64.ofRat_fifty : Binary64.ofRat 50 = Binary64.finite 50 :=
  Binary64.ofRat_eq_of_near (e := 5) 7036874417766400 _ (by norm_num) (by norm_num)
    (by norm_num) (by norm_num) (by norm_num [abs_lt]) (by norm_num) (by norm_num)

theorem Binary64.one_sub_tenth :
    (1 : Binary64) - Binary64.finite (3602879701896397 / 36028797018963968)
      = Binary64.finite (8106479329266893 / 9007199254740992) := by
  show Binary64.ofRat (1 + -(3602879701896397 / 36028797018963968)) = _
  exact Binary64.ofRat_eq_of_near (e := -1) 8106479329266893 _ (by norm_num) (by norm_num)
    (by norm_num) (by norm_num) (by norm_num [abs_lt]) (by norm_num) (by norm_num)

theorem Binary64.thirty_mul_nine_tenths :
    Binary64.finite 30 * Binary64.finite (8106479329266893 / 9007199254740992)
      = Binary64.finite 27 := by
  show Binary64.ofRat (30 * (8106479329266893 / 9007199254740992)) = _
  exact Binary64.ofRat_eq_of_near (e := 4) 7599824371187712 _ (by norm_num) (by norm_num)
    (by norm_num) (by norm_num) (by norm_num [abs_lt]) (by norm_num) (by norm_num)

theorem Binary64.zero_add_forty : (0 : Binary64) + Binary64.finite 40 = Binary64.finite 40 := by
  show Binary64.ofRat (0 + 40) = _
  rw [zero_add]
  exact Binary64.ofRat_forty

theorem Binary64.forty_add_fifty :
    Binary64.finite 40 + Binary64.finite 50 = Binary64.finite 90 := by
  show Binary64.ofRat (40 + 50) = _
  exact Binary64.ofRat_eq_of_near (e := 6) 6333186975989760 _ (by norm_num) (by norm_num)
    (by norm_num) (by norm_num) (by norm_num [abs_lt]) (by norm_num) (by norm_num)

theorem Binary64.ninety_add_twenty_seven :
    Binary64.finite 90 + Binary64.finite 27 = Binary64.finite 117 := by
  show Binary64.ofRat (90 + 27) = _
  exact Binary64.ofRat_eq_of_near (e := 6) 8233143068786688 _ (by norm_num) (by norm_num)
    (by norm_num) (by norm_num) (by norm_num [abs_lt]) (by norm_num) (by norm_num)


theorem Binary64.one_sub_of_value {fq : ℚ} (hgrid : roundToGrid fq = fq) (h0 : 0 ≤ fq)
    (h1 : fq < 1) :
    ∃ tq, (1 : Binary64) - Binary64.finite fq = Binary64.finite tq ∧ 0 < tq ∧ tq ≤ 1
      ∧ (fq = 0 → tq = 1) := by
  have hpred := le_pred_one_of_onGrid hgrid h0 h1
  have hlow : (1 : ℚ) / 2 ^ 53 ≤ 1 + -fq := by linarith
  have hup : 1 + -fq ≤ 1 := by linarith
  have hpos : (0 : ℚ) ≤ 1 + -fq := le_trans (by norm_num) hlow
  have ht1 : roundToGrid (1 + -fq) ≤ 1 := by
    have := roundToGrid_mono_nonneg hpos hup
    rwa [roundToGrid_one] at this
  have ht0 : 0 < roundToGrid (1 + -fq) := by
    have := roundToGrid_mono_nonneg (by norm_num : (0 : ℚ) ≤ 1 / 2 ^ 53) hlow
    rw [roundToGrid_two_zpow_neg_53] at this
    exact lt_of_lt_of_le (by norm_num) this
  refine ⟨roundToGrid (1 + -fq), ?_, ht0, ht1, ?_⟩
  · show Binary64.ofRat (1 + -fq) = _
    exact Binary64.ofRat_eq_finite hpos (lt_of_le_of_lt ht1 (by norm_num))
  · intro hz
    rw [hz, neg_zero, add_zero, roundToGrid_one]

theorem Binary64.mul_fraction_bounds {b : Binary64} (hb : b.IsValue) (hb0 : 0 ≤ b) {tq : ℚ}
    (ht0 : 0 < tq) (ht1 : tq ≤ 1) :
    0 ≤ b * Binary64.finite tq ∧ b * Binary64.finite tq ≤ b
      ∧ (tq = 1 → b * Binary64.finite tq = b) ∧ (b = 0 → b * Binary64.finite tq = b) := by
  rcases Binary64.nonneg_cases hb0 with ⟨bq, rfl, hbq⟩ | rfl
  · obtain ⟨hgrid, hsmall⟩ := hb
    have hbq2 : bq < 2 ^ 1024 := lt_of_le_of_lt (le_abs_self bq) hsmall
    have hprod0 : 0 ≤ bq * tq := mul_nonneg hbq ht0.le
    have hprod1 : bq * tq ≤ bq := by nlinarith
    have hg0 := roundToGrid_nonneg hprod0
    have hg1 : roundToGrid (bq * tq) ≤ bq := by
      have := roundToGrid_mono_nonneg hprod0 hprod1
      rwa [hgrid] at this
    have hmul : Binary64.finite bq * Binary64.finite tq
        = Binary64.finite (roundToGrid (bq * tq)) := by
      show Binary64.ofRat (bq * tq) = _
      exact Binary64.ofRat_eq_finite hprod0 (lt_of_le_of_lt hg1 hbq2)
    rw [hmul]
    refine ⟨hg0, hg1, ?_, ?_⟩
    · intro h
      rw [h, mul_one, hgrid]
    · intro h
      have hz : bq = 0 := by
        have h2 : Binary64.finite bq = Binary64.finite 0 := h
        injection h2
      rw [hz, zero_mul, roundToGrid_zero]
  · have hmul : Binary64.posInf * Binary64.finite tq = Binary64.posInf := by
      show Binary64.infTimes false tq = _
      unfold Binary64.infTimes
      rw [if_neg ht0.ne', if_pos ht0]
      rfl
    rw [hmul]
    refine ⟨True.intro, True.intro, fun _ => rfl, fun _ => rfl⟩

theorem Binary64.discount_bounds {b f : Binary64} (hb : b.IsValue) (hf : f.IsValue)
    (hb0 : 0 ≤ b) (hf0 : 0 ≤ f) (hf1 : f < 1) :
    0 ≤ b * (1 - f) ∧ b * (1 - f) ≤ b ∧ (f = 0 ∨ b = 0 → b * (1 - f) = b) := by
  rcases Binary64.nonneg_cases hf0 with ⟨fq, rfl, hfq⟩ | rfl
  · obtain ⟨tq, ht, ht0, ht1, hone⟩ :=
      Binary64.one_sub_of_value hf.1 hfq (show fq < 1 from hf1)
    rw [ht]
    obtain ⟨m0, m1, m2, m3⟩ := Binary64.mul_fraction_bounds hb hb0 ht0 ht1
    refine ⟨m0, m1, ?_⟩
    rintro (h | h)
    · apply m2
      apply hone
      have h2 : Binary64.finite fq = Binary64.finite 0 := h
      injection h2
    · exact m3 h
  · exact False.elim hf1

theorem Item.getPrice_bounds_of_inRange {it : Item Binary64} (h : it.InRange) :
    0 ≤ it.getPrice ∧ it.getPrice ≤ it.basePrice := by
  obtain ⟨name, b, strategy⟩ := it
  obtain ⟨hv, h0, hs⟩ := h
  cases strategy with
  | none => exact ⟨h0, Binary64.le_refl_of_nonneg h0⟩
  | some s =>
    cases s with
    | RegularPricing => exact ⟨h0, Binary64.le_refl_of_nonneg h0⟩
    | DiscountPricing f =>
      obtain ⟨hf, hf0, hf1⟩ := hs
      have := Binary64.discount_bounds hv hf h0 hf0 hf1
      exact ⟨this.1, this.2.1⟩

theorem ShoppingCart.foldl_bounds_of_inRange (items : List (Item Binary64))
    (h : ∀ it ∈ items, it.InRange) (x y : Binary64) (hx : 0 ≤ x) (hxy : x ≤ y) :
    0 ≤ items.foldl (fun total it => total + it.getPrice) x
      ∧ items.foldl (fun total it => total + it.getPrice) x
          ≤ items.foldl (fun total it => total + it.basePrice) y := by
  induction items generalizing x y with
  | nil => exact ⟨hx, hxy⟩
  | cons it rest ih =>
    have hit := Item.getPrice_bounds_of_inRange (h it (List.mem_cons_self _ _))
    have hstep := Binary64.add_mono_nonneg hx hxy hit.1 hit.2
    exact ih (fun j hj => h j (List.mem_cons_of_mem _ hj)) _ _ hstep.1 hstep.2

theorem main_eq {D : Type} [Zero D] [Add D] [One D] [Sub D] [Mul D] (lit : ℚ → D) :
    main lit = Except.ok
      (World.mk (some (Store.mk "Online Store" [0, 1] [0]))
        [Department.mk "Books"
            [Item.mk "C plus plus Basics" (lit 40) (some PricingStrategy.RegularPricing),
              Item.mk "Data Structures Book" (lit 50) (some PricingStrategy.RegularPricing)],
          Department.mk "Music"
            [Item.mk "Greatest Hits Album" (lit 30)
              (some (PricingStrategy.DiscountPricing (lit (1 / 10))))]]
        [Customer.mk "Alice" (ShoppingCart.mk
          [Item.mk "C plus plus Basics" (lit 40) (some PricingStrategy.RegularPricing),
            Item.mk "Data Structures Book" (lit 50) (some PricingStrategy.RegularPricing),
            Item.mk "Greatest Hits Album" (lit 30)
              (some (PricingStrategy.DiscountPricing (lit (1 / 10))))])],
       (Department.mk "Books"
            [Item.mk "C plus plus Basics" (lit 40) (some PricingStrategy.RegularPricing),
              Item.mk "Data Structures Book" (lit 50)
                (some PricingStrategy.RegularPricing)]).showItems
          ++ (Department.mk "Music"
            [Item.mk "Greatest Hits Album" (lit 30)
              (some (PricingStrategy.DiscountPricing (lit (1 / 10))))]).showItems
          ++ [Out.str "Alice", Out.str " entered store ", Out.str "Online Store", Out.endl]
          ++ ([Out.str "Checkout for ", Out.str "Alice", Out.endl]
            ++ [Out.str "Items in cart", Out.endl,
              Out.str "C plus plus Basics", Out.str " price ", Out.dbl (lit 40), Out.endl,
              Out.str "Data Structures Book", Out.str " price ", Out.dbl (lit 50), Out.endl,
              Out.str "Greatest Hits Album", Out.str " price ",
                Out.dbl (lit 30 * (1 - lit (1 / 10))), Out.endl]
            ++ [Out.str "Total ",
              Out.dbl (0 + lit 40 + lit 50 + lit 30 * (1 - lit (1 / 10))), Out.endl])) :=
  rfl

theorem Binary64.driver_total :
    (0 : Binary64) + Binary64.ofRat 40 + Binary64.ofRat 50
        + Binary64.ofRat 30 * (1 - Binary64.ofRat (1 / 10))
      = Binary64.finite 117 := by
  rw [Binary64.ofRat_forty, Binary64.ofRat_fifty, Binary64.ofRat_thirty, Binary64.ofRat_tenth,
    Binary64.one_sub_tenth, Binary64.thirty_mul_nine_tenths, Binary64.zero_add_forty,
    Binary64.forty_add_fifty, Binary64.ninety_add_twenty_seven]

/-! ## The driver scenario -/

/-- C13: the driver adds to the cart an item of base price `40.00` with
regular pricing, one of `50.00` with regular pricing and one of `30.00` with a
discount of `0.10`, in that order; the cart's `getTotal()` is `117`, and that
is the total `checkout` writes last, both in exact arithmetic and in binary64. -/
theorem main_total_is_117 :
    (∃ w pre alice,
        main (fun q : ℚ => q) = Except.ok (w, pre ++ [Out.str "Total ", Out.dbl 117, Out.endl])
          ∧ w.customers = [alice]
          ∧ alice.getCart.items.map (fun it => (it.basePrice, it.strategy))
              = [(40, some PricingStrategy.RegularPricing),
                  (50, some PricingStrategy.RegularPricing),
                  (30, some (PricingStrategy.DiscountPricing (1 / 10)))]
          ∧ alice.getCart.getTotal = 117)
      ∧ ∃ w pre alice,
          main Binary64.ofRat
              = Except.ok (w, pre ++ [Out.str "Total ", Out.dbl (Binary64.finite 117), Out.endl])
            ∧ w.customers = [alice]
            ∧ alice.getCart.items.map (fun it => (it.basePrice, it.strategy))
                = [(Binary64.ofRat 40, some PricingStrategy.RegularPricing),
                    (Binary64.ofRat 50, some PricingStrategy.RegularPricing),
                    (Binary64.ofRat 30,
                      some (PricingStrategy.DiscountPricing (Binary64.ofRat (1 / 10))))]
            ∧ alice.getCart.getTotal = Binary64.finite 117 := by
  have hq : (0 : ℚ) + 40 + 50 + 30 * (1 - 1 / 10) = 117 := by norm_num
  constructor
  · apply Exists.intro
    apply Exists.intro
    apply Exists.intro
    refine ⟨(main_eq (fun q : ℚ => q)).trans ?h1, ?h2, ?h3, ?h4⟩
    case h1 =>
      simp only [← List.append_assoc]
      rw [hq]
    case h2 => rfl
    case h3 => rfl
    case h4 => exact hq
  · apply Exists.intro
    apply Exists.intro
    apply Exists.intro
    refine ⟨(main_eq Binary64.ofRat).trans ?h1, ?h2, ?h3, ?h4⟩
    case h1 =>
      simp only [← List.append_assoc]
      rw [Binary64.driver_total]
    case h2 => rfl
    case h3 => rfl
    case h4 => exact Binary64.driver_total

/-- C14: the item of base price `30.00` bound to `DiscountPricing(0.10)` has
`getPrice()` equal to `27`, both in exact arithmetic and in binary64. -/
theorem Item.getPrice_discounted_is_27 :
    (∃ s it, DiscountPricing.new ((1 : ℚ) / 10) = Except.ok s
        ∧ Item.new "Greatest Hits Album" (30 : ℚ) (some s) = Except.ok it
        ∧ it.getPrice = 27)
      ∧ ∃ s it, DiscountPricing.new (Binary64.ofRat (1 / 10)) = Except.ok s
          ∧ Item.new "Greatest Hits Album" (Binary64.ofRat 30) (some s) = Except.ok it
          ∧ it.getPrice = Binary64.finite 27 := by
  constructor
  · refine ⟨_, _, rfl, rfl, ?_⟩
    show (30 : ℚ) * (1 - 1 / 10) = 27
    norm_num
  · refine ⟨_, _, rfl, rfl, ?_⟩
    show Binary64.ofRat 30 * (1 - Binary64.ofRat (1 / 10)) = Binary64.finite 27
    rw [Binary64.ofRat_thirty, Binary64.ofRat_tenth, Binary64.one_sub_tenth,
      Binary64.thirty_mul_nine_tenths]

/-! ## Bounds on discounted prices -/

/-- C20 fails in binary64 at base price `1` and fraction `2 ^ (-60)`: both are
`double` values in range, neither is zero, and `1.0 - 2 ^ (-60)` rounds to
`1.0`, so `getPrice(1)` is `1`, the base price. -/
theorem PricingStrategy.getPrice_discount_absorbed :
    (Binary64.finite 1).IsValue ∧ (Binary64.finite (1 / 2 ^ 60)).IsValue
      ∧ (0 : Binary64) ≤ Binary64.finite 1
      ∧ (0 : Binary64) ≤ Binary64.finite (1 / 2 ^ 60)
      ∧ Binary64.finite (1 / 2 ^ 60) < 1
      ∧ (PricingStrategy.DiscountPricing (Binary64.finite (1 / 2 ^ 60))).getPrice
          (Binary64.finite 1) = Binary64.finite 1
      ∧ Binary64.finite (1 / 2 ^ 60) ≠ 0 ∧ Binary64.finite 1 ≠ 0 := by
  have hgrid : roundToGrid (1 / 2 ^ 60) = 1 / 2 ^ 60 := by
    have h := roundToGrid_eq_of_near (q := 1 / 2 ^ 60) (e := -60) 4503599627370496
      (by norm_num) (by norm_num) (by norm_num) (by norm_num) (by norm_num)
    rw [h]
    norm_num
  have hsub : (1 : Binary64) - Binary64.finite (1 / 2 ^ 60) = Binary64.finite 1 := by
    show Binary64.ofRat (1 + -(1 / 2 ^ 60)) = _
    exact Binary64.ofRat_eq_of_near (e := -1) 9007199254740992 _ (by norm_num) (by norm_num)
      (by norm_num) (by norm_num) (by norm_num [abs_lt]) (by norm_num) (by norm_num)
  have hmul : Binary64.finite 1 * Binary64.finite 1 = Binary64.finite 1 := by
    show Binary64.ofRat (1 * 1) = _
    rw [mul_one, Binary64.ofRat_eq_finite (by norm_num) (by rw [roundToGrid_one]; norm_num),
      roundToGrid_one]
  refine ⟨⟨roundToGrid_one, by norm_num⟩, ⟨hgrid, by norm_num [abs_lt]⟩, ?_, ?_, ?_, ?_, ?_, ?_⟩
  · show (0 : ℚ) ≤ 1
    norm_num
  · show (0 : ℚ) ≤ 1 / 2 ^ 60
    norm_num
  · show (1 : ℚ) / 2 ^ 60 < 1
    norm_num
  · show Binary64.finite 1 * (1 - Binary64.finite (1 / 2 ^ 60)) = Binary64.finite 1
    rw [hsub, hmul]
  · intro h
    have h2 : Binary64.finite (1 / 2 ^ 60) = Binary64.finite 0 := h
    injection h2 with h3
    norm_num at h3
  · intro h
    have h2 : Binary64.finite 1 = Binary64.finite 0 := h
    injection h2 with h3
    norm_num at h3

/-- C20, amended: in binary64, for every base price `b >= 0` and every
discount fraction `f` with `0 <= f < 1`, `DiscountPricing(f).getPrice(b)` lies
between `0` and `b`, and it equals `b` whenever `f = 0` or `b = 0`;
consequently a cart whose items all have base prices `>= 0` and fractions in
`[0, 1)` has `getTotal()` between `0` and the base prices accumulated in the
same order.  In exact arithmetic the price equals `b` only when `f = 0` or
`b = 0`. -/
theorem PricingStrategy.getPrice_discount_bounds :
    (∀ b f : Binary64, b.IsValue → f.IsValue → 0 ≤ b → 0 ≤ f → f < 1 →
        0 ≤ (PricingStrategy.DiscountPricing f).getPrice b
          ∧ (PricingStrategy.DiscountPricing f).getPrice b ≤ b
          ∧ (f = 0 ∨ b = 0 → (PricingStrategy.DiscountPricing f).getPrice b = b))
      ∧ (∀ c : ShoppingCart Binary64, (∀ it ∈ c.items, it.InRange) →
          0 ≤ c.getTotal
            ∧ c.getTotal ≤ c.items.foldl (fun total it => total + it.basePrice) 0)
      ∧ ∀ b f : ℚ, 0 ≤ b → 0 ≤ f → f < 1 →
          ((PricingStrategy.DiscountPricing f).getPrice b = b ↔ (f = 0 ∨ b = 0)) := by
  refine ⟨?_, ?_, ?_⟩
  · intro b f hb hf hb0 hf0 hf1
    exact Binary64.discount_bounds hb hf hb0 hf0 hf1
  · intro c hc
    exact ShoppingCart.foldl_bounds_of_inRange c.items hc 0 0 (le_refl (0 : ℚ))
      (le_refl (0 : ℚ))
  · intro b f _ _ _
    show b * (1 - f) = b ↔ (f = 0 ∨ b = 0)
    constructor
    · intro h
      have h2 : b * f = 0 := by linarith
      rcases mul_eq_zero.1 h2 with hb | hf
      · exact Or.inr hb
      · exact Or.inl hf
    · rintro (h | h)
      · rw [h, sub_zero, mul_one]
      · rw [h, zero_mul]

theorem PricingStrategy.getPrice_discount_bounds_witness :
    (0 : Binary64) ≤ Binary64.finite 27 ∧ Binary64.finite 27 ≤ Binary64.finite 30 := by
  have hv30 : (Binary64.finite 30).IsValue := by
    have h := Binary64.ofRat_thirty
    unfold Binary64.ofRat at h
    split_ifs at h
    injection h with h2
    exact ⟨h2, by norm_num [abs_lt]⟩
  have hv10 : (Binary64.finite (3602879701896397 / 36028797018963968)).IsValue := by
    have h := Binary64.ofRat_tenth
    unfold Binary64.ofRat at h
    split_ifs at h
    injection h with h2
    refine ⟨?_, by norm_num [abs_lt]⟩
    rw [← h2]
    have h3 : roundToGrid (roundToGrid (1 / 10)) = roundToGrid (1 / 10) := by
      rw [h2]
      have h := roundToGrid_eq_of_near (q := 3602879701896397 / 36028797018963968) (e := -4)
        7205759403792794 (by norm_num) (by norm_num) (by norm_num) (by norm_num) (by norm_num)
      rw [h]
      norm_num
    rw [h2] at h3 ⊢
    exact h3
  have h := PricingStrategy.getPrice_discount_bounds.1 (Binary64.finite 30)
    (Binary64.finite (3602879701896397 / 36028797018963968)) hv30 hv10
    (show (0 : ℚ) ≤ 30 by norm_num)
    (show (0 : ℚ) ≤ 3602879701896397 / 36028797018963968 by norm_num)
    (show (3602879701896397 / 36028797018963968 : ℚ) < 1 by norm_num)
  have hp : (PricingStrategy.DiscountPricing
      (Binary64.finite (3602879701896397 / 36028797018963968))).getPrice (Binary64.finite 30)
      = Binary64.finite 27 := by
    show Binary64.finite 30 * (1 - Binary64.finite (3602879701896397 / 36028797018963968)) = _
    rw [Binary64.one_sub_tenth, Binary64.thirty_mul_nine_tenths]
  rw [hp] at h
  exact ⟨h.1, h.2.1⟩

/-! ## Rounding of negative numbers -/

theorem roundHalfEven_neg (x : ℚ) : roundHalfEven (-x) = -roundHalfEven x := by
  by_cases hint : x - ⌊x⌋ = 0
  · have hx : x = ((⌊x⌋ : Int) : ℚ) := by linarith
    rw [hx, ← Int.cast_neg, roundHalfEven_intCast, roundHalfEven_intCast]
  · have h0 : 0 ≤ x - ⌊x⌋ := by linarith [Int.floor_le x]
    have h1 : x - ⌊x⌋ < 1 := by linarith [Int.lt_floor_add_one x]
    have hpos : 0 < x - ⌊x⌋ := lt_of_le_of_ne h0 (Ne.symm hint)
    have hf : ⌊-x⌋ = -⌊x⌋ - 1 := by
      rw [Int.floor_eq_iff]
      push_cast
      constructor <;> linarith
    unfold roundHalfEven
    rw [hf]
    push_cast
    split_ifs <;> first | omega | (exfalso; linarith)

theorem ulpExp_neg (q : ℚ) : ulpExp (-q) = ulpExp q := by
  unfold ulpExp
  rw [abs_neg]

theorem roundToGrid_neg (q : ℚ) : roundToGrid (-q) = -roundToGrid q := by
  unfold roundToGrid
  rw [ulpExp_neg, neg_div, roundHalfEven_neg]
  push_cast
  ring

theorem roundToGrid_mono {q r : ℚ} (h : q ≤ r) : roundToGrid q ≤ roundToGrid r := by
  rcases le_total 0 q with hq | hq
  · exact roundToGrid_mono_nonneg hq h
  · rcases le_total 0 r with hr | hr
    · have h1 := roundToGrid_nonneg (neg_nonneg.2 hq)
      rw [roundToGrid_neg] at h1
      have h2 := roundToGrid_nonneg hr
      linarith
    · have h1 := roundToGrid_mono_nonneg (neg_nonneg.2 hr) (neg_le_neg h)
      rw [roundToGrid_neg, roundToGrid_neg] at h1
      linarith

theorem roundToGrid_two_zpow_neg_52 : roundToGrid (1 / 2 ^ 52) = 1 / 2 ^ 52 := by
  have h := roundToGrid_eq_of_near (q := 1 / 2 ^ 52) (e := -52) 4503599627370496
    (by norm_num) (by norm_num) (by norm_num) (by norm_num) (by norm_num)
  rw [h]
  norm_num

theorem succ_one_le_of_onGrid {f : ℚ} (hgrid : roundToGrid f = f) (h1 : 1 < f) :
    1 + 1 / 2 ^ 52 ≤ f := by
  have hpos : 0 < f := lt_trans zero_lt_one h1
  have hlog : 0 ≤ Int.log 2 f := by
    rw [← Int.zpow_le_iff_le_log one_lt_two hpos]
    simpa using h1.le
  by_cases hL : Int.log 2 f = 0
  · have hu : ulpExp f = -52 := by
      unfold ulpExp
      rw [abs_of_pos hpos, hL]
      rfl
    unfold roundToGrid at hgrid
    rw [hu] at hgrid
    have hp : (0 : ℚ) < 2 ^ (-52 : Int) := zpow_pos (by norm_num) _
    have hk : ((2 ^ 52 : Int) : ℚ) < (roundHalfEven (f / 2 ^ (-52 : Int)) : ℚ) := by
      have hlt : 1 < (roundHalfEven (f / 2 ^ (-52 : Int)) : ℚ) * 2 ^ (-52 : Int) := by
        rw [hgrid]
        exact h1
      have := (div_lt_iff₀ hp).2 hlt
      calc ((2 ^ 52 : Int) : ℚ) = 1 / 2 ^ (-52 : Int) := by norm_num
        _ < (roundHalfEven (f / 2 ^ (-52 : Int)) : ℚ) := this
    have hk2 : 2 ^ 52 + 1 ≤ roundHalfEven (f / 2 ^ (-52 : Int)) := by
      have : 2 ^ 52 < roundHalfEven (f / 2 ^ (-52 : Int)) := by exact_mod_cast hk
      omega
    have hk3 : (2 ^ 52 + 1 : ℚ) ≤ (roundHalfEven (f / 2 ^ (-52 : Int)) : ℚ) := by
      exact_mod_cast hk2
    calc (1 : ℚ) + 1 / 2 ^ 52 = (2 ^ 52 + 1) * 2 ^ (-52 : Int) := by norm_num
      _ ≤ (roundHalfEven (f / 2 ^ (-52 : Int)) : ℚ) * 2 ^ (-52 : Int) :=
        mul_le_mul_of_nonneg_right hk3 hp.le
      _ = f := hgrid
  · have hL2 : (1 : Int) ≤ Int.log 2 f := by omega
    have := (zpow_le_zpow_right₀ (by norm_num : (1 : ℚ) ≤ 2) hL2).trans (two_zpow_log_le hpos)
    calc (1 : ℚ) + 1 / 2 ^ 52 ≤ (2 : ℚ) ^ (1 : Int) := by norm_num
      _ ≤ f := this

theorem Binary64.not_lt_zero_of_nonneg {x : Binary64} (h : 0 ≤ x) : ¬ x < 0 := by
  rcases Binary64.nonneg_cases h with ⟨q, rfl, hq⟩ | rfl
  · exact not_lt.2 hq
  · exact fun hlt => hlt

theorem Binary64.ofRat_nonneg {q : ℚ} (h : 0 ≤ q) : 0 ≤ Binary64.ofRat q :=
  (Binary64.ofRat_mono_nonneg h (le_refl q)).1

theorem Binary64.ofRat_of_le_neg {q : ℚ} (h : q ≤ -(1 / 2 ^ 52)) :
    Binary64.ofRat q = Binary64.negInf
      ∨ ∃ r, Binary64.ofRat q = Binary64.finite r ∧ r ≤ -(1 / 2 ^ 52) := by
  have hr : roundToGrid q ≤ -(1 / 2 ^ 52) := by
    have := roundToGrid_mono h
    rwa [roundToGrid_neg, roundToGrid_two_zpow_neg_52] at this
  have hbig : ¬ (2 : ℚ) ^ 1024 ≤ roundToGrid q := by
    intro hle
    have : (0 : ℚ) < 2 ^ 1024 := by positivity
    have : (0 : ℚ) < 1 / 2 ^ 52 := by positivity
    linarith
  unfold Binary64.ofRat
  rw [if_neg hbig]
  by_cases hsmall : roundToGrid q ≤ -(2 ^ 1024)
  · rw [if_pos hsmall]
    exact Or.inl rfl
  · rw [if_neg hsmall]
    exact Or.inr ⟨_, rfl, hr⟩

theorem Binary64.one_mul_negative_lt_zero {t : Binary64}
    (ht : t = Binary64.negInf ∨ ∃ r, t = Binary64.finite r ∧ r ≤ -(1 / 2 ^ 52)) :
    Binary64.finite 1 * t < 0 := by
  rcases ht with rfl | ⟨r, rfl, hr⟩
  · show Binary64.infTimes true 1 < 0
    unfold Binary64.infTimes
    rw [if_neg one_ne_zero, if_pos zero_lt_one]
    exact True.intro
  · show Binary64.ofRat (1 * r) < 0
    rw [one_mul]
    rcases Binary64.ofRat_of_le_neg hr with h | ⟨r2, h, hr2⟩
    · rw [h]
      exact True.intro
    · rw [h]
      have : (0 : ℚ) < 1 / 2 ^ 52 := by positivity
      show r2 < 0
      linarith

theorem Binary64.one_sub_of_gt_one {f : Binary64} (hf : f.IsValue) (h : 1 < f) :
    (1 : Binary64) - f = Binary64.negInf
      ∨ ∃ r, (1 : Binary64) - f = Binary64.finite r ∧ r ≤ -(1 / 2 ^ 52) := by
  cases f with
  | finite fq =>
    have hge := succ_one_le_of_onGrid hf.1 (show (1 : ℚ) < fq from h)
    show Binary64.ofRat (1 + -fq) = _ ∨ ∃ r, Binary64.ofRat (1 + -fq) = _ ∧ _
    exact Binary64.ofRat_of_le_neg (by linarith)
  | posInf => exact Or.inl rfl
  | negInf => exact False.elim h
  | nan => exact False.elim h

theorem Binary64.one_sub_of_not_gt_one {f : Binary64} (h : ¬ 1 < f) :
    0 ≤ (1 : Binary64) - f ∨ (1 : Binary64) - f = Binary64.nan := by
  cases f with
  | finite fq =>
    left
    have hle : fq ≤ 1 := not_lt.1 (show ¬ (1 : ℚ) < fq from h)
    show 0 ≤ Binary64.ofRat (1 + -fq)
    exact Binary64.ofRat_nonneg (by linarith only [hle])
  | posInf => exact False.elim (h True.intro)
  | negInf => exact Or.inl True.intro
  | nan => exact Or.inr rfl

theorem Binary64.mul_nan (b : Binary64) : b * Binary64.nan = Binary64.nan := by
  cases b <;> rfl

theorem Binary64.mul_nonneg_or_nan {b t : Binary64} (hb : 0 ≤ b) (ht : 0 ≤ t) :
    0 ≤ b * t ∨ b * t = Binary64.nan := by
  rcases Binary64.nonneg_cases hb with ⟨bq, rfl, hbq⟩ | rfl
  · rcases Binary64.nonneg_cases ht with ⟨tq, rfl, htq⟩ | rfl
    · left
      show 0 ≤ Binary64.ofRat (bq * tq)
      exact Binary64.ofRat_nonneg (mul_nonneg hbq htq)
    · show 0 ≤ Binary64.infTimes false bq ∨ Binary64.infTimes false bq = Binary64.nan
      unfold Binary64.infTimes
      by_cases hz : bq = 0
      · rw [if_pos hz]
        exact Or.inr rfl
      · rw [if_neg hz, if_pos (lt_of_le_of_ne hbq (Ne.symm hz))]
        exact Or.inl True.intro
  · rcases Binary64.nonneg_cases ht with ⟨tq, rfl, htq⟩ | rfl
    · show 0 ≤ Binary64.infTimes false tq ∨ Binary64.infTimes false tq = Binary64.nan
      unfold Binary64.infTimes
      by_cases hz : tq = 0
      · rw [if_pos hz]
        exact Or.inr rfl
      · rw [if_neg hz, if_pos (lt_of_le_of_ne htq (Ne.symm hz))]
        exact Or.inl True.intro
    · exact Or.inl True.intro

theorem Binary64.discount_nonneg_or_nan {b f : Binary64} (hb : 0 ≤ b) (hf : ¬ 1 < f) :
    0 ≤ b * (1 - f) ∨ b * (1 - f) = Binary64.nan := by
  rcases Binary64.one_sub_of_not_gt_one hf with ht | ht
  · exact Binary64.mul_nonneg_or_nan hb ht
  · rw [ht]
    exact Or.inr (Binary64.mul_nan b)

theorem Binary64.not_lt_zero_of_nonneg_or_nan {x : Binary64}
    (h : 0 ≤ x ∨ x = Binary64.nan) : ¬ x < 0 := by
  rcases h with h | h
  · exact Binary64.not_lt_zero_of_nonneg h
  · rw [h]
    exact fun hlt => hlt

theorem Binary64.isValue_one : (Binary64.finite 1).IsValue :=
  ⟨roundToGrid_one, by norm_num⟩

theorem Binary64.not_gt_of_le {a b : Binary64} (h : a ≤ b) : ¬ b < a := by
  cases a with
  | finite x =>
    cases b with
    | finite y => exact not_lt.2 (show x ≤ y from h)
    | posInf => exact fun hlt => hlt
    | negInf => exact False.elim h
    | nan => exact False.elim h
  | posInf => cases b <;> first | exact False.elim h | exact fun hlt => hlt
  | negInf => cases b <;> first | exact False.elim h | exact fun hlt => hlt
  | nan => cases b <;> exact False.elim h

theorem Binary64.ofRat_neg_eq {q r : ℚ} (hg : roundToGrid q = r) (h0 : 0 < r)
    (hsmall : r < 2 ^ 1024) : Binary64.ofRat (-q) = Binary64.finite (-r) := by
  have hpow : (0 : ℚ) < 2 ^ 1024 := by positivity
  unfold Binary64.ofRat
  rw [roundToGrid_neg, hg, if_neg (by linarith), if_neg (by linarith)]

theorem roundToGrid_two : roundToGrid 2 = 2 := by
  have h := roundToGrid_eq_of_near (q := 2) (e := 1) 4503599627370496 (by norm_num)
    (by norm_num) (by norm_num) (by norm_num) (by norm_num)
  rw [h]
  norm_num

theorem roundToGrid_ten : roundToGrid 10 = 10 := by
  have h := roundToGrid_eq_of_near (q := 10) (e := 3) 5629499534213120 (by norm_num)
    (by norm_num) (by norm_num) (by norm_num) (by norm_num)
  rw [h]
  norm_num

/-! ## Prices are never negative -/

/-- C8 fails for the policy `DiscountPricing(2)`, which the constructor
accepts: on the base price `10` it returns `10 * (1 - 2) = -10`, in exact
arithmetic and in binary64, where every value involved is exact. -/
theorem PricingStrategy.getPrice_negative :
    (∃ s, DiscountPricing.new (2 : ℚ) = Except.ok s ∧ (0 : ℚ) ≤ 10
        ∧ s.getPrice 10 = -10 ∧ s.getPrice 10 < 0)
      ∧ ∃ s, DiscountPricing.new (Binary64.finite 2) = Except.ok s
          ∧ (Binary64.finite 2).IsValue ∧ (Binary64.finite 10).IsValue
          ∧ (0 : Binary64) ≤ Binary64.finite 10
          ∧ s.getPrice (Binary64.finite 10) = Binary64.finite (-10)
          ∧ s.getPrice (Binary64.finite 10) < 0 := by
  constructor
  · refine ⟨PricingStrategy.DiscountPricing 2, rfl, by norm_num, ?_, ?_⟩ <;>
      norm_num [PricingStrategy.getPrice]
  · have hsub : (1 : Binary64) - Binary64.finite 2 = Binary64.finite (-1) := by
      show Binary64.ofRat (1 + -2) = _
      have e : (1 : ℚ) + -2 = -1 := by norm_num
      rw [e]
      exact Binary64.ofRat_neg_eq roundToGrid_one (by norm_num) (by norm_num)
    have hmul : Binary64.finite 10 * Binary64.finite (-1) = Binary64.finite (-10) := by
      show Binary64.ofRat (10 * -1) = _
      have e : (10 : ℚ) * -1 = -10 := by norm_num
      rw [e]
      exact Binary64.ofRat_neg_eq roundToGrid_ten (by norm_num) (by norm_num)
    have hprice : (PricingStrategy.DiscountPricing (Binary64.finite 2)).getPrice
        (Binary64.finite 10) = Binary64.finite (-10) := by
      show Binary64.finite 10 * (1 - Binary64.finite 2) = _
      rw [hsub, hmul]
    refine ⟨PricingStrategy.DiscountPricing (Binary64.finite 2), rfl,
      ⟨roundToGrid_two, by norm_num [abs_lt]⟩, ⟨roundToGrid_ten, by norm_num [abs_lt]⟩,
      ?_, hprice, ?_⟩
    · show (0 : ℚ) ≤ 10
      norm_num
    · rw [hprice]
      show (-10 : ℚ) < 0
      norm_num

/-- C8, amended: in binary64, `RegularPricing` never returns a negative price
on a base price `>= 0`; a `DiscountPricing` whose fraction `f` is a `double`
value returns no negative price on any base price `>= 0` exactly when `f` is
not greater than `1`; in particular for every `f <= 1` (so for `0 <= f < 1`)
and every base price `>= 0` the price is never negative: it is `>= 0`, or NaN.
In exact arithmetic the price is `>= 0` on every base price `>= 0` exactly
when `f <= 1`. -/
theorem PricingStrategy.getPrice_never_negative :
    (∀ b : Binary64, 0 ≤ b →
        ¬ (PricingStrategy.RegularPricing : PricingStrategy Binary64).getPrice b < 0)
      ∧ (∀ f : Binary64, f.IsValue →
          ((∀ b : Binary64, b.IsValue → 0 ≤ b →
              ¬ (PricingStrategy.DiscountPricing f).getPrice b < 0) ↔ ¬ 1 < f))
      ∧ (∀ f b : Binary64, f ≤ 1 → 0 ≤ b →
          ¬ (PricingStrategy.DiscountPricing f).getPrice b < 0
            ∧ (0 ≤ (PricingStrategy.DiscountPricing f).getPrice b
                ∨ (PricingStrategy.DiscountPricing f).getPrice b = Binary64.nan))
      ∧ ∀ f : ℚ, (∀ b : ℚ, 0 ≤ b → 0 ≤ (PricingStrategy.DiscountPricing f).getPrice b)
          ↔ f ≤ 1 := by
  refine ⟨?_, ?_, ?_, (PricingStrategy.getPrice_nonneg_iff (D := ℚ)).2⟩
  · intro b hb
    exact Binary64.not_lt_zero_of_nonneg hb
  · intro f hf
    constructor
    · intro hall hgt
      have hneg : (PricingStrategy.DiscountPricing f).getPrice (Binary64.finite 1) < 0 :=
        Binary64.one_mul_negative_lt_zero (Binary64.one_sub_of_gt_one hf hgt)
      exact hall (Binary64.finite 1) Binary64.isValue_one (show (0 : ℚ) ≤ 1 by norm_num) hneg
    · intro hle b _ hb
      exact Binary64.not_lt_zero_of_nonneg_or_nan (Binary64.discount_nonneg_or_nan hb hle)
  · intro f b hf hb
    have h := Binary64.discount_nonneg_or_nan hb (Binary64.not_gt_of_le hf)
    exact ⟨Binary64.not_lt_zero_of_nonneg_or_nan h, h⟩

theorem PricingStrategy.getPrice_never_negative_witness :
    ¬ (PricingStrategy.DiscountPricing (Binary64.finite 1)).getPrice Binary64.posInf < 0
      ∧ (PricingStrategy.DiscountPricing (Binary64.finite 1)).getPrice Binary64.posInf
          = Binary64.nan := by
  have h := (PricingStrategy.getPrice_never_negative.2.2.1 (Binary64.finite 1)
    Binary64.posInf (show (1 : ℚ) ≤ 1 from le_refl 1) True.intro).1
  refine ⟨h, ?_⟩
  have hsub : (1 : Binary64) - Binary64.finite 1 = Binary64.finite 0 := by
    show Binary64.ofRat (1 + -1) = _
    have e : (1 : ℚ) + -1 = 0 := by norm_num
    rw [e, Binary64.ofRat_eq_finite (le_refl 0) (by rw [roundToGrid_zero]; norm_num),
      roundToGrid_zero]
  show Binary64.posInf * (1 - Binary64.finite 1) = Binary64.nan
  rw [hsub]
  rfl

end FinalProject
